import Mathlib

/-!
Verification development for the Gmail-mirror synchronization engine
(`gmail-sync`, `gmail-api`, `s3-service` and the drizzle schema).

The TypeScript sources are embedded shallowly:

* pure helpers (`sanitizeFilename`, `generateAttachmentKey`,
  `extractHtmlBody`, `extractAttachments`, `getHeaderValue`) become pure
  Lean functions over `String` / `List`;
* the relational store becomes an explicit `DBState` record of row lists
  plus per-table id counters (the serial columns), and every sync method
  of `GmailSyncService` becomes a state-passing function; a thrown
  JavaScript exception becomes an `Except String` result, with the state
  produced so far kept (partial effects of a failed step persist, as they
  do against a real database without a wrapping transaction);
* remote Gmail and S3 are inputs: a `SyncEnv` record carries the data the
  remote returns and Boolean switches for the failure of each remote or
  S3 call, mirroring the `throw` sites of the source;
* timestamps are `Nat`; the cycle start `syncStartTime` and the cycle end
  time are passed explicitly.

All definitions are executable; claim witnesses evaluate them on concrete
inputs.
-/

namespace GmailClient

/-! ## Generic character/string helpers -/

/-- Character-list version of "`l` begins with `pat`". -/
def charsStartWith : List Char → List Char → Bool
  | _, [] => true
  | [], _ :: _ => false
  | c :: cs, p :: ps => c == p && charsStartWith cs ps

/-- Character-list version of "`pat` occurs inside `l`"
(JavaScript `String.prototype.includes`). -/
def charsContain (l pat : List Char) : Bool :=
  charsStartWith l pat ||
    match l with
    | [] => false
    | _ :: cs => charsContain cs pat

/-- JavaScript `value.includes(pat)` on strings. -/
def strContains (s pat : String) : Bool :=
  charsContain s.toList pat.toList

/-! ## S3Service (`src/lib/s3-service.ts`)

`sanitizeFilename` is
`filename.replace(/[^a-zA-Z0-9._-]/g, '_').replace(/_{2,}/g, '_').substring(0, 255)`. -/

/-- The S3-safe character class `[a-zA-Z0-9._-]` of the sanitizer's regex. -/
def isSafeChar (c : Char) : Bool :=
  (('a' ≤ c && c ≤ 'z') || ('A' ≤ c && c ≤ 'Z') || ('0' ≤ c && c ≤ '9')
    || c == '.' || c == '_' || c == '-')

/-- `replace(/[^a-zA-Z0-9._-]/g, '_')` on one character. -/
def replaceUnsafe (c : Char) : Char :=
  if isSafeChar c then c else '_'

/-- Dropping a matching run never lengthens a list (termination measure of
`collapseUnderscores`). -/
theorem dropWhileLengthLe {α : Type} (p : α → Bool) (l : List α) :
    (l.dropWhile p).length ≤ l.length := by
  induction l with
  | nil => simp [List.dropWhile]
  | cons a l ih =>
    rw [List.dropWhile]
    cases p a
    · simp
    · simpa using Nat.le_succ_of_le ih

/-- `replace(/_{2,}/g, '_')`: collapse each run of two or more
underscores to a single one. -/
def collapseUnderscores : List Char → List Char
  | [] => []
  | '_' :: rest => '_' :: collapseUnderscores (rest.dropWhile (· == '_'))
  | c :: rest => c :: collapseUnderscores rest
termination_by l => l.length
decreasing_by
  all_goals simp_wf
  all_goals exact Nat.lt_succ_of_le (dropWhileLengthLe _ _)

/-- `S3Service.sanitizeFilename`. -/
def sanitizeFilename (filename : String) : String :=
  String.mk (collapseUnderscores (filename.toList.map replaceUnsafe) |>.take 255)

/-- `S3Service.generateEmailBodyKey` (also the key computed inline by
`uploadEmailBody`). -/
def generateEmailBodyKey (userId : Nat) (messageId : String) : String :=
  "emails/" ++ toString userId ++ "/bodies/" ++ messageId ++ ".html"

/-- `S3Service.generateAttachmentKey` (also the key computed inline by
`uploadAttachment`). -/
def generateAttachmentKey (userId : Nat) (messageId attachmentId filename : String) :
    String :=
  "emails/" ++ toString userId ++ "/attachments/" ++ messageId ++ "/"
    ++ attachmentId ++ "/" ++ sanitizeFilename filename

/-! ## Base64 / UTF-8 decoding

`Buffer.from(data, 'base64').toString('utf-8')` from
`GmailApiService.extractHtmlBody`. Node's base64 decoder accepts both the
standard and the URL-safe alphabet, skips characters outside it (including
the `=` padding) and keeps only whole output bytes. -/

/-- Value of one base64 alphabet character (standard and URL-safe),
`none` for characters outside the alphabet. -/
def b64Val (c : Char) : Option Nat :=
  if 'A' ≤ c && c ≤ 'Z' then some (c.toNat - 65)
  else if 'a' ≤ c && c ≤ 'z' then some (c.toNat - 97 + 26)
  else if '0' ≤ c && c ≤ '9' then some (c.toNat - 48 + 52)
  else if c == '+' || c == '-' then some 62
  else if c == '/' || c == '_' then some 63
  else none

/-- Pack a list of 6-bit groups into 8-bit bytes, dropping the
incomplete trailing bits. -/
def sextetsToBytes : List Nat → Nat → Nat → List Nat
  | [], _, _ => []
  | v :: vs, acc, nbits =>
    let acc' := acc * 64 + v % 64
    let nbits' := nbits + 6
    if 8 ≤ nbits' then
      (acc' / 2 ^ (nbits' - 8)) :: sextetsToBytes vs (acc' % 2 ^ (nbits' - 8)) (nbits' - 8)
    else
      sextetsToBytes vs acc' nbits'

/-- `Buffer.from(s, 'base64')` as a byte list. -/
def decodeBase64 (s : String) : List Nat :=
  sextetsToBytes (s.toList.filterMap b64Val) 0 0

/-- Is `b` a UTF-8 continuation byte (`10xxxxxx`)? -/
def isCont (b : Nat) : Bool := 0x80 ≤ b && b < 0xC0

/-- Best-effort UTF-8 decoding of a byte list, one replacement character
per invalid lead byte (the lossy behavior of `buffer.toString('utf-8')`). -/
def utf8Decode : List Nat → List Char
  | [] => []
  | b :: bs =>
    if b < 0x80 then Char.ofNat b :: utf8Decode bs
    else if b < 0xC2 then '�' :: utf8Decode bs
    else if b < 0xE0 then
      match bs with
      | b2 :: bs2 =>
        if isCont b2 then
          Char.ofNat ((b - 0xC0) * 0x40 + (b2 - 0x80)) :: utf8Decode bs2
        else '�' :: utf8Decode (b2 :: bs2)
      | [] => ['�']
    else if b < 0xF0 then
      match bs with
      | b2 :: b3 :: bs3 =>
        if isCont b2 && isCont b3 then
          Char.ofNat ((b - 0xE0) * 0x1000 + (b2 - 0x80) * 0x40 + (b3 - 0x80))
            :: utf8Decode bs3
        else '�' :: utf8Decode (b2 :: b3 :: bs3)
      | [b2] => '�' :: utf8Decode [b2]
      | [] => ['�']
    else if b < 0xF5 then
      match bs with
      | b2 :: b3 :: b4 :: bs4 =>
        if isCont b2 && isCont b3 && isCont b4 then
          Char.ofNat ((b - 0xF0) * 0x40000 + (b2 - 0x80) * 0x1000
              + (b3 - 0x80) * 0x40 + (b4 - 0x80)) :: utf8Decode bs4
        else '�' :: utf8Decode (b2 :: b3 :: b4 :: bs4)
      | [b2, b3] => '�' :: utf8Decode [b2, b3]
      | [b2] => '�' :: utf8Decode [b2]
      | [] => ['�']
    else '�' :: utf8Decode bs

/-- `Buffer.from(data, 'base64').toString('utf-8')`. -/
def decodeBase64Utf8 (data : String) : String :=
  String.mk (utf8Decode (decodeBase64 data))

/-! ## Gmail message payload model (`src/lib/gmail-api.ts`)

`GmailMessagePayload` is a MIME part tree; optional fields keep their
optionality, and where the source relies on JavaScript truthiness an empty
string counts as absent. -/

/-- `GmailHeader`. -/
structure GmailHeader where
  name : String
  value : String
deriving Repr, DecidableEq

/-- `GmailBody`: inline data and/or an attachment pointer. -/
structure GmailBody where
  attachmentId : Option String
  size : Nat
  data : Option String
deriving Repr, DecidableEq

/-- `GmailMessagePayload`: a MIME part with optional nested parts. -/
inductive Payload where
  | node (partId : String) (mimeType : String) (filename : Option String)
      (headers : List GmailHeader) (body : Option GmailBody)
      (parts : List Payload)

/-- The `mimeType` field of a payload node. -/
def Payload.mimeType : Payload → String
  | .node _ mt _ _ _ _ => mt

/-- The `filename` field of a payload node. -/
def Payload.filename : Payload → Option String
  | .node _ _ fn _ _ _ => fn

/-- The `headers` field of a payload node. -/
def Payload.headers : Payload → List GmailHeader
  | .node _ _ _ hs _ _ => hs

/-- The `body` field of a payload node. -/
def Payload.body : Payload → Option GmailBody
  | .node _ _ _ _ bd _ => bd

/-- The `parts` field of a payload node. -/
def Payload.parts : Payload → List Payload
  | .node _ _ _ _ _ ps => ps

/-- Truthiness of `payload.body?.data`: a body with a non-empty `data`
string. -/
def bodyDataTruthy : Option GmailBody → Option String
  | some b =>
    match b.data with
    | some d => if d ≠ "" then some d else none
    | none => none
  | none => none

/-- Truthiness of `payload.body?.attachmentId`. -/
def bodyAttachmentIdTruthy : Option GmailBody → Option String
  | some b =>
    match b.attachmentId with
    | some a => if a ≠ "" then some a else none
    | none => none
  | none => none

/-- Truthiness of `payload.filename`. -/
def filenameTruthy : Option String → Option String
  | some f => if f ≠ "" then some f else none
  | none => none

mutual

/-- `GmailApiService.extractHtmlBody`: return the base64-decoded data of a
`text/html` node, else recurse into the parts depth-first; a recursive
result that is the empty string is falsy in `if (htmlBody) return htmlBody`
and is skipped. Total — it never throws. -/
def extractHtmlBody : Payload → Option String
  | .node _ mt _ _ bd parts =>
    match bodyDataTruthy bd with
    | some d =>
      if mt = "text/html" then some (decodeBase64Utf8 d)
      else extractHtmlBodyList parts
    | none => extractHtmlBodyList parts

/-- The `for (const part of payload.parts)` loop of `extractHtmlBody`. -/
def extractHtmlBodyList : List Payload → Option String
  | [] => none
  | p :: ps =>
    match extractHtmlBody p with
    | some s => if s ≠ "" then some s else extractHtmlBodyList ps
    | none => extractHtmlBodyList ps

end

mutual

/-- `GmailApiService.extractAttachments`: collect every node that has a
truthy `filename` and a truthy `body.attachmentId`, depth-first. -/
def extractAttachments : Payload → List Payload
  | .node pid mt fn hdrs bd parts =>
    (if (filenameTruthy fn).isSome && (bodyAttachmentIdTruthy bd).isSome then
      [Payload.node pid mt fn hdrs bd parts]
    else []) ++ extractAttachmentsList parts

/-- The parts loop of `extractAttachments`. -/
def extractAttachmentsList : List Payload → List Payload
  | [] => []
  | p :: ps => extractAttachments p ++ extractAttachmentsList ps

end

/-- `GmailApiService.getHeaderValue`: case-insensitive lookup, and
`header?.value || null` turns an empty value into `null`. -/
def getHeaderValue (headers : List GmailHeader) (name : String) : Option String :=
  match headers.find? (fun h => h.name.toLower == name.toLower) with
  | some h => if h.value ≠ "" then some h.value else none
  | none => none

/-! ## Relational store (`src/server/db/schema.ts`)

One record per table, keeping the columns the sync engine reads or
writes; audit-only columns (`createdAt`, `updatedAt`, `startedAt`) and
tables the engine never touches (`drafts`) are omitted. Serial primary
keys are modelled by per-table `next…Id` counters on the state. -/

/-- A `users` row (columns used by the engine). -/
structure UserRow where
  id : Nat
  lastSyncAt : Option Nat
deriving Repr, DecidableEq

/-- A `labels` row. -/
structure LabelRow where
  id : Nat
  userId : Nat
  labelId : String
  name : String
  type : String
deriving Repr, DecidableEq

/-- A `threads` row. -/
structure ThreadRow where
  id : Nat
  gmailThreadId : String
  userId : Nat
  historyId : Option String
  lastMessageDate : Nat
  isUnread : Bool
  isStarred : Bool
  isImportant : Bool
  isDraft : Bool
  lastSeenAt : Nat
deriving Repr, DecidableEq

/-- A `thread_labels` junction row. -/
structure ThreadLabelRow where
  threadId : Nat
  labelId : Nat
deriving Repr, DecidableEq

/-- A `messages` row (`from`/`to` are Lean-reserved-adjacent, hence
`fromAddr`/`toAddr`). -/
structure MessageRow where
  id : Nat
  gmailMessageId : String
  threadId : Nat
  fromAddr : String
  toAddr : String
  cc : Option String
  bcc : Option String
  subject : String
  date : Nat
  snippet : String
  bodyS3Key : Option String
  headers : List GmailHeader
  isUnread : Bool
  isStarred : Bool
  isDraft : Bool
deriving Repr, DecidableEq

/-- An `attachments` row. -/
structure AttachmentRow where
  id : Nat
  messageId : Nat
  gmailAttachmentId : String
  filename : String
  mimeType : String
  size : Nat
  s3Key : String
  inline : Bool
deriving Repr, DecidableEq

/-- A `sync_logs` row. -/
structure SyncLogRow where
  id : Nat
  userId : Nat
  syncType : String
  status : String
  completedAt : Option Nat
  errorMessage : Option String
  threadsSynced : Nat
  messagesSynced : Nat
deriving Repr, DecidableEq

/-- The whole relational store. -/
structure DBState where
  users : List UserRow
  labels : List LabelRow
  threads : List ThreadRow
  threadLabels : List ThreadLabelRow
  messages : List MessageRow
  attachments : List AttachmentRow
  syncLogs : List SyncLogRow
  nextLabelId : Nat
  nextThreadId : Nat
  nextMessageId : Nat
  nextAttachmentId : Nat
  nextSyncLogId : Nat
deriving Repr, DecidableEq

/-! ## Remote data (`GmailApiService` results) and failure switches -/

/-- A label returned by `gmail.users.labels.list`. -/
structure GmailLabel where
  id : String
  name : String
  type : Option String
deriving Repr, DecidableEq

/-- A message of a thread returned by `users.threads.get` (fields the
engine reads). `internalDate` is the already-parsed millisecond value of
the source's `parseInt(gmailMessage.internalDate)`. -/
structure GmailMsg where
  id : String
  labelIds : Option (List String)
  snippet : String
  internalDate : Nat
  payload : Payload

/-- A thread with its full message list (`GmailThread`). -/
structure GmailThread where
  id : String
  historyId : Option String
  messages : List GmailMsg

/-- The remote world a cycle runs against: the data Gmail returns plus a
Boolean failure switch for every remote / S3 call the engine makes
(`true` = that call throws). -/
structure SyncEnv where
  gmailLabels : List GmailLabel
  labelsFail : Bool
  threads : List GmailThread
  threadsFail : Bool
  attachmentFetchFail : String → String → Bool
  attachmentData : String → String → Nat × String
  bodyUploadFail : Nat → String → Bool
  attachmentUploadFail : Nat → String → String → Bool

/-- `gmailLabel.type || 'user'` (empty string is falsy). -/
def labelTypeOf (g : GmailLabel) : String :=
  match g.type with
  | some t => if t ≠ "" then t else "user"
  | none => "user"

/-- `msg.labelIds?.includes(lbl) || false`. -/
def msgHasLabel (m : GmailMsg) (lbl : String) : Bool :=
  match m.labelIds with
  | some ids => ids.contains lbl
  | none => false

/-- `attachmentPart.filename || 'unknown'`. -/
def filenameOrUnknown (fn : Option String) : String :=
  match filenameTruthy fn with
  | some f => f
  | none => "unknown"

/-- `attachmentPart.headers?.some(h => h.name.toLowerCase() ===
'content-disposition' && h.value.includes('inline')) || false`. -/
def partIsInline (hdrs : List GmailHeader) : Bool :=
  hdrs.any (fun h => h.name.toLower == "content-disposition"
    && strContains h.value "inline")

/-- `SyncResult` returned by `syncUser`. -/
structure SyncResult where
  success : Bool
  threadsSynced : Nat
  messagesSynced : Nat
  attachmentsSynced : Nat
  error : Option String
deriving Repr, DecidableEq

/-- Running counters accumulated over a cycle. -/
structure SyncCounts where
  threadsSynced : Nat
  messagesSynced : Nat
  attachmentsSynced : Nat
deriving Repr, DecidableEq

/-! ## GmailSyncService -/

/-- `startSyncLog`: insert a `running` sync log row and return its id. -/
def startSyncLog (userId : Nat) (syncType : String) (st : DBState) : DBState × Nat :=
  let id := st.nextSyncLogId
  let row : SyncLogRow :=
    { id := id, userId := userId,
      syncType := syncType, status := "running",
      completedAt := none, errorMessage := none,
      threadsSynced := 0, messagesSynced := 0 }
  ({ st with syncLogs := st.syncLogs ++ [row], nextSyncLogId := id + 1 }, id)

/-- `completeSyncLog`: update the row with the given id. Passing
`errorMessage = none` models the success call, where drizzle skips the
`undefined` column and the stored value is kept. -/
def completeSyncLog (syncLogId : Nat) (status : String)
    (threadsSynced messagesSynced : Nat) (errorMessage : Option String)
    (completedAt : Nat) (st : DBState) : DBState :=
  { st with
      syncLogs := st.syncLogs.map (fun l =>
        if l.id == syncLogId then
          { l with
              status := status, threadsSynced := threadsSynced,
              messagesSynced := messagesSynced,
              completedAt := some completedAt,
              errorMessage := match errorMessage with
                | some e => some e
                | none => l.errorMessage }
        else l) }

/-- The `for (const gmailLabel of gmailLabels)` loop of `syncLabels`. -/
def labelsLoop (userId : Nat) (gls : List GmailLabel) (st : DBState) : DBState :=
  match gls with
  | [] => st
  | g :: rest =>
    if st.labels.any (fun l => l.userId == userId && l.labelId == g.id) then
      labelsLoop userId rest st
    else
      let row : LabelRow :=
        { id := st.nextLabelId, userId := userId,
          labelId := g.id, name := g.name, type := labelTypeOf g }
      labelsLoop userId rest
        { st with labels := st.labels ++ [row], nextLabelId := st.nextLabelId + 1 }

/-- `syncLabels`: fetch remote labels and insert each one whose
`(userId, labelId)` pair is not present yet; existing labels are never
updated. A fetch failure propagates (`Failed to fetch Gmail labels`). -/
def syncLabels (userId : Nat) (env : SyncEnv) (st : DBState) :
    DBState × Except String Unit :=
  if env.labelsFail then (st, .error "Failed to fetch Gmail labels")
  else (labelsLoop userId env.gmailLabels st, .ok ())

/-- Generic JavaScript string truthiness (`if (s)` on a
string-or-absent value). -/
def strTruthy : Option String → Option String
  | some s => if s ≠ "" then some s else none
  | none => none

/-- Does a message row with this `(threadId, gmailMessageId)` pair exist
(the `existingMessage` lookup of `syncMessage`)? -/
def msgExists (st : DBState) (threadId : Nat) (gmailMessageId : String) : Bool :=
  st.messages.any (fun m => m.threadId == threadId && m.gmailMessageId == gmailMessageId)

/-- `Array.from(labelIds)` where `labelIds` is the `Set` collected over
all messages of a thread, in insertion order. -/
def threadLabelIdSet (gmailMessages : List GmailMsg) : List String :=
  gmailMessages.foldl (fun acc m =>
    match m.labelIds with
    | some ids => ids.foldl (fun a i => if a.contains i then a else a ++ [i]) acc
    | none => acc) []

/-- The `threadLabelInserts` rows of `syncThreadLabels`: one junction row
per label row whose remote id occurs in the collected set — note the
source filters on `labels.labelId` only, with no `userId` condition. -/
def threadLabelInserts (threadId : Nat) (gmailMessages : List GmailMsg)
    (labels : List LabelRow) : List ThreadLabelRow :=
  (labels.filter (fun l => (threadLabelIdSet gmailMessages).contains l.labelId)).map
    (fun l => { threadId := threadId, labelId := l.id })

/-- `syncThreadLabels`: resolve the collected remote label ids against the
`labels` table and insert the junction rows. -/
def syncThreadLabels (threadId : Nat) (gmailMessages : List GmailMsg)
    (st : DBState) : DBState :=
  let inserts := threadLabelInserts threadId gmailMessages st.labels
  if 0 < inserts.length then
    { st with threadLabels := st.threadLabels ++ inserts }
  else st

/-- The `messages` row inserted by `syncMessage` for a not-yet-present
message. -/
def newMessageRow (threadId : Nat) (gmailMessage : GmailMsg)
    (bodyS3Key : Option String) (st : DBState) : MessageRow :=
  let headers := gmailMessage.payload.headers
  { id := st.nextMessageId,
    gmailMessageId := gmailMessage.id,
    threadId := threadId,
    fromAddr := (getHeaderValue headers "From").getD "",
    toAddr := (getHeaderValue headers "To").getD "",
    cc := getHeaderValue headers "Cc",
    bcc := getHeaderValue headers "Bcc",
    subject := (getHeaderValue headers "Subject").getD "",
    date := gmailMessage.internalDate,
    snippet := gmailMessage.snippet,
    bodyS3Key := bodyS3Key,
    headers := headers,
    isUnread := msgHasLabel gmailMessage "UNREAD",
    isStarred := msgHasLabel gmailMessage "STARRED",
    isDraft := msgHasLabel gmailMessage "DRAFT" }

/-- One iteration of the `for (const attachmentPart of attachmentParts)`
loop of `syncMessage`, wrapped in its own `try`: a fetch failure, an
upload failure, or a duplicate-key failure of the `attachments` insert
(unique index `(messageId, gmailAttachmentId)` in the schema) is
swallowed; only a fully successful iteration inserts a row and counts
toward `attachmentsSynced`. -/
def syncOneAttachment (userId : Nat) (gmailMessageId : String) (newMessageId : Nat)
    (part : Payload) (env : SyncEnv) (st : DBState) : DBState × Nat :=
  match bodyAttachmentIdTruthy part.body with
  | none => (st, 0)
  | some attachmentId =>
    if env.attachmentFetchFail gmailMessageId attachmentId then (st, 0)
    else
      let fetched := env.attachmentData gmailMessageId attachmentId
      if env.attachmentUploadFail userId gmailMessageId attachmentId then (st, 0)
      else if st.attachments.any (fun a =>
          a.messageId == newMessageId && a.gmailAttachmentId == attachmentId) then
        (st, 0)
      else
        let fname := filenameOrUnknown part.filename
        let row : AttachmentRow :=
          { id := st.nextAttachmentId,
            messageId := newMessageId,
            gmailAttachmentId := attachmentId,
            filename := fname,
            mimeType := part.mimeType,
            size := fetched.1,
            s3Key := generateAttachmentKey userId gmailMessageId attachmentId fname,
            inline := partIsInline part.headers }
        ({ st with
            attachments := st.attachments ++ [row],
            nextAttachmentId := st.nextAttachmentId + 1 }, 1)

/-- The iteration over `attachmentParts`. -/
def attachmentLoop (userId : Nat) (gmailMessageId : String) (newMessageId : Nat)
    (parts : List Payload) (env : SyncEnv) (st : DBState) : DBState × Nat :=
  match parts with
  | [] => (st, 0)
  | part :: rest =>
    let one := syncOneAttachment userId gmailMessageId newMessageId part env st
    let r := attachmentLoop userId gmailMessageId newMessageId rest env one.1
    (r.1, one.2 + r.2)

/-- The tail of `syncMessage` once the body key is settled: insert the
message row, then run the attachment loop. -/
def finishMessage (userId threadId : Nat) (gmailMessage : GmailMsg)
    (bodyS3Key : Option String) (env : SyncEnv) (st : DBState) :
    DBState × Nat × Nat :=
  let row := newMessageRow threadId gmailMessage bodyS3Key st
  let st1 := { st with
    messages := st.messages ++ [row],
    nextMessageId := st.nextMessageId + 1 }
  let res := attachmentLoop userId gmailMessage.id row.id
    (extractAttachments gmailMessage.payload) env st1
  (res.1, 1, res.2)

/-- `syncMessage`: skip an already-present `(threadId, gmailMessageId)`
row; otherwise extract headers and HTML body, upload the body when truthy
(a failing upload throws out of `syncMessage` before the message row is
inserted), insert the row, then sync attachments. The result counts
`(messagesSynced, attachmentsSynced)`. -/
def syncMessage (userId threadId : Nat) (gmailMessage : GmailMsg)
    (env : SyncEnv) (st : DBState) : DBState × Except String (Nat × Nat) :=
  if msgExists st threadId gmailMessage.id then (st, .ok (0, 0))
  else
    match strTruthy (extractHtmlBody gmailMessage.payload) with
    | some _ =>
      if env.bodyUploadFail userId gmailMessage.id then
        (st, .error ("Failed to upload email body for message " ++ gmailMessage.id))
      else
        let r := finishMessage userId threadId gmailMessage
          (some (generateEmailBodyKey userId gmailMessage.id)) env st
        (r.1, .ok (r.2.1, r.2.2))
    | none =>
      let r := finishMessage userId threadId gmailMessage none env st
      (r.1, .ok (r.2.1, r.2.2))

/-- The `for (const gmailMessage of gmailThread.messages)` loop of
`syncThread`: each message's error is caught and the loop continues. -/
def msgLoop (userId threadId : Nat) (msgs : List GmailMsg) (env : SyncEnv)
    (st : DBState) : DBState × Nat × Nat :=
  match msgs with
  | [] => (st, 0, 0)
  | g :: rest =>
    match syncMessage userId threadId g env st with
    | (s', .ok c) =>
      let r := msgLoop userId threadId rest env s'
      (r.1, c.1 + r.2.1, c.2 + r.2.2)
    | (s', .error _) => msgLoop userId threadId rest env s'

/-- The `threads` row inserted by `syncThread` for a new thread;
`lastMessage` is `gmailThread.messages[gmailThread.messages.length - 1]`. -/
def newThreadRow (userId : Nat) (gmailThread : GmailThread)
    (lastMessage : GmailMsg) (syncStartTime : Nat) (st : DBState) : ThreadRow :=
  { id := st.nextThreadId,
    gmailThreadId := gmailThread.id,
    userId := userId,
    historyId := gmailThread.historyId,
    lastMessageDate := lastMessage.internalDate,
    isUnread := gmailThread.messages.any (msgHasLabel · "UNREAD"),
    isStarred := gmailThread.messages.any (msgHasLabel · "STARRED"),
    isImportant := gmailThread.messages.any (msgHasLabel · "IMPORTANT"),
    isDraft := gmailThread.messages.any (msgHasLabel · "DRAFT"),
    lastSeenAt := syncStartTime }

/-- `syncThread`. If no `(userId, gmailThreadId)` row exists, reading
`internalDate` of the last element of an empty `messages` array throws
(modelled by the `getLast? = none` branch); otherwise the thread row is
inserted with `lastSeenAt = syncStartTime` and its labels are synced. If
a row exists, only `lastSeenAt` is updated. Messages are then synced
one by one, each under its own catch. -/
def syncThread (userId : Nat) (gmailThread : GmailThread) (syncStartTime : Nat)
    (env : SyncEnv) (st : DBState) : DBState × Except String SyncCounts :=
  match st.threads.filter (fun t =>
      t.userId == userId && t.gmailThreadId == gmailThread.id) with
  | [] =>
    match gmailThread.messages.getLast? with
    | none => (st, .error "Cannot read properties of undefined (reading 'internalDate')")
    | some lastMessage =>
      let row := newThreadRow userId gmailThread lastMessage syncStartTime st
      let st1 := { st with
        threads := st.threads ++ [row],
        nextThreadId := st.nextThreadId + 1 }
      let st2 := syncThreadLabels row.id gmailThread.messages st1
      let r := msgLoop userId row.id gmailThread.messages env st2
      (r.1, .ok ⟨1, r.2.1, r.2.2⟩)
  | t :: _ =>
    let st1 := { st with threads := st.threads.map (fun r =>
      if r.id == t.id then { r with lastSeenAt := syncStartTime } else r) }
    let r := msgLoop userId t.id gmailThread.messages env st1
    (r.1, .ok ⟨0, r.2.1, r.2.2⟩)

/-- `cleanupDeletedThreads`: delete every thread of this user whose
`lastSeenAt` is strictly before the cycle start, with the schema's
`onDelete: cascade` removing its messages, their attachments, and its
`thread_labels` rows. Returns the number of deleted threads. -/
def cleanupDeletedThreads (userId syncStartTime : Nat) (st : DBState) :
    DBState × Nat :=
  let deletedIds := (st.threads.filter (fun t =>
    t.userId == userId && t.lastSeenAt < syncStartTime)).map (fun t => t.id)
  if 0 < deletedIds.length then
    let deletedMessageIds := (st.messages.filter (fun m =>
      deletedIds.contains m.threadId)).map (fun m => m.id)
    ({ st with
        threads := st.threads.filter (fun t => !(deletedIds.contains t.id)),
        messages := st.messages.filter (fun m => !(deletedIds.contains m.threadId)),
        attachments := st.attachments.filter (fun a =>
          !(deletedMessageIds.contains a.messageId)),
        threadLabels := st.threadLabels.filter (fun tl =>
          !(deletedIds.contains tl.threadId)) }, deletedIds.length)
  else (st, 0)

/-- The `for (const gmailThread of gmailThreads)` loop of `syncUser`:
each thread's error is caught and the loop continues with the others. -/
def threadsPhase (userId syncStartTime : Nat) (gts : List GmailThread)
    (env : SyncEnv) (st : DBState) : DBState × SyncCounts :=
  match gts with
  | [] => (st, ⟨0, 0, 0⟩)
  | gt :: rest =>
    match syncThread userId gt syncStartTime env st with
    | (s', .ok c) =>
      let r := threadsPhase userId syncStartTime rest env s'
      (r.1, ⟨c.threadsSynced + r.2.threadsSynced,
             c.messagesSynced + r.2.messagesSynced,
             c.attachmentsSynced + r.2.attachmentsSynced⟩)
    | (s', .error _) => threadsPhase userId syncStartTime rest env s'

/-- The failure payload of `syncUser`'s outer catch. -/
def failResult (e : String) : SyncResult :=
  { success := false, threadsSynced := 0, messagesSynced := 0,
    attachmentsSynced := 0, error := some e }

/-- `syncUser`: one full cycle. Writes the `running` audit row, resolves
the user, syncs labels, fetches up to 1000 threads, processes each thread
under a per-thread catch, prunes threads not seen this cycle, stamps the
user's `lastSyncAt`, and finalizes the audit row; any error escaping the
setup steps is caught once at the outermost level and recorded as a
`failed` cycle with all counts zero. `syncStartTime` is the recorded cycle
start `T0`; `endTime` stands for the `new Date()` values taken at the end
of the cycle. -/
def syncUser (userId : Nat) (syncStartTime endTime : Nat) (env : SyncEnv)
    (st : DBState) : DBState × SyncResult :=
  let start := startSyncLog userId "full" st
  let st0 := start.1
  let syncLogId := start.2
  if !(st0.users.any (fun u => u.id == userId)) then
    (completeSyncLog syncLogId "failed" 0 0 (some "User not found") endTime st0,
     failResult "User not found")
  else
    match syncLabels userId env st0 with
    | (st1, .error e) =>
      (completeSyncLog syncLogId "failed" 0 0 (some e) endTime st1, failResult e)
    | (st1, .ok _) =>
      if env.threadsFail then
        (completeSyncLog syncLogId "failed" 0 0
          (some "Failed to fetch Gmail threads") endTime st1,
         failResult "Failed to fetch Gmail threads")
      else
        let phase := threadsPhase userId syncStartTime (env.threads.take 1000) env st1
        let st3 := (cleanupDeletedThreads userId syncStartTime phase.1).1
        let st4 := { st3 with users := st3.users.map (fun u =>
          if u.id == userId then { u with lastSyncAt := some endTime } else u) }
        let st5 := completeSyncLog syncLogId "success" phase.2.threadsSynced
          phase.2.messagesSynced none endTime st4
        (st5, { success := true, threadsSynced := phase.2.threadsSynced,
                messagesSynced := phase.2.messagesSynced,
                attachmentsSynced := phase.2.attachmentsSynced, error := none })

/-! ## Derived predicates used by the specification statements -/

mutual

/-- The truthy `body.data` values of every `text/html` node of a payload
tree, in depth-first order (node before its parts). `extractHtmlBody` can
only ever return a decoding of one of these. -/
def htmlDatas : Payload → List String
  | .node _ mt _ _ bd parts =>
    (match bodyDataTruthy bd with
     | some d => if mt = "text/html" then [d] else []
     | none => []) ++ htmlDatasList parts

/-- `htmlDatas` over a list of parts. -/
def htmlDatasList : List Payload → List String
  | [] => []
  | p :: ps => htmlDatas p ++ htmlDatasList ps

end

/-- Does the tree contain a `text/html` node with truthy data whose
decoding is non-empty (the only kind the extractor can return)? -/
def goodHtml (p : Payload) : Bool :=
  (htmlDatas p).any (fun d => decodeBase64Utf8 d ≠ "")

/-- Will this attachment part be fully processed by the attachment loop
(truthy attachment id, fetch succeeds, upload succeeds)? -/
def attachmentOk (userId : Nat) (gmailMessageId : String) (env : SyncEnv)
    (part : Payload) : Bool :=
  match bodyAttachmentIdTruthy part.body with
  | some aid =>
    !(env.attachmentFetchFail gmailMessageId aid)
      && !(env.attachmentUploadFail userId gmailMessageId aid)
  | none => false

/-- Well-formedness of the `threads` table: distinct primary keys, the
unique index `(userId, gmailThreadId)`, and counter freshness. -/
def ThreadsWF (st : DBState) : Prop :=
  (st.threads.map (fun t => t.id)).Nodup
  ∧ st.threads.Pairwise (fun a b => ¬(a.userId = b.userId ∧ a.gmailThreadId = b.gmailThreadId))
  ∧ (∀ t ∈ st.threads, t.id < st.nextThreadId)

/-- Well-formedness of the store: `ThreadsWF` plus the unique indexes of
the schema on `messages (threadId, gmailMessageId)`,
`attachments (messageId, gmailAttachmentId)` and `labels (userId, labelId)`,
and freshness of the serial counters relative to the rows. -/
def WF (st : DBState) : Prop :=
  ThreadsWF st
  ∧ st.messages.Pairwise (fun a b => ¬(a.threadId = b.threadId ∧ a.gmailMessageId = b.gmailMessageId))
  ∧ (∀ m ∈ st.messages, m.id < st.nextMessageId)
  ∧ st.attachments.Pairwise (fun a b => ¬(a.messageId = b.messageId ∧ a.gmailAttachmentId = b.gmailAttachmentId))
  ∧ (∀ a ∈ st.attachments, a.messageId < st.nextMessageId)
  ∧ st.labels.Pairwise (fun a b => ¬(a.userId = b.userId ∧ a.labelId = b.labelId))

/-- The primary keys of the threads the prune step removes. -/
def prunedThreadIds (userId syncStartTime : Nat) (st : DBState) : List Nat :=
  (st.threads.filter (fun t =>
    t.userId == userId && t.lastSeenAt < syncStartTime)).map (fun t => t.id)

/-- The primary keys of the messages removed by the prune cascade. -/
def prunedMessageIds (userId syncStartTime : Nat) (st : DBState) : List Nat :=
  (st.messages.filter (fun m =>
    (prunedThreadIds userId syncStartTime st).contains m.threadId)).map (fun m => m.id)

/-- A thread of the remote list is fully mirrored: some local thread row
carries its `(userId, gmailThreadId)` key and every remote message of the
thread has a row under that local thread id. -/
def threadComplete (st : DBState) (userId : Nat) (gt : GmailThread) : Prop :=
  ∃ t ∈ st.threads, t.userId = userId ∧ t.gmailThreadId = gt.id
    ∧ ∀ g ∈ gt.messages, msgExists st t.id g.id = true

/-- How states grow along a cycle: every thread row keeps a successor row
with the same id and key, and message rows are never removed. -/
def Evolves (st st' : DBState) : Prop :=
  (∀ t ∈ st.threads, ∃ t' ∈ st'.threads,
    t'.id = t.id ∧ t'.userId = t.userId ∧ t'.gmailThreadId = t.gmailThreadId)
  ∧ (∀ m ∈ st.messages, m ∈ st'.messages)

/-! ## Concrete payloads and stores used on concrete inputs -/

/-- A `text/plain` leaf carrying base64 `"plain"`. -/
def plainPart : Payload :=
  .node "0.0" "text/plain" none []
    (some { attachmentId := none, size := 5, data := some "cGxhaW4=" }) []

/-- A `text/html` part whose truthy data decodes to the empty string
(`Buffer.from("A", 'base64')` is empty). -/
def emptyHtmlPart : Payload :=
  .node "0.1" "text/html" none []
    (some { attachmentId := none, size := 1, data := some "A" }) []

/-- A `text/html` part with real content. -/
def goodHtmlPart : Payload :=
  .node "0.2" "text/html" none []
    (some { attachmentId := none, size := 12, data := some "PGI+aGk8L2I+" }) []

/-- A remote environment with no failures and no data, the base of the
concrete stores below. -/
def wEnvNoFail : SyncEnv :=
  { gmailLabels := [], labelsFail := false, threads := [], threadsFail := false,
    attachmentFetchFail := fun _ _ => false,
    attachmentData := fun _ _ => (0, ""),
    bodyUploadFail := fun _ _ => false,
    attachmentUploadFail := fun _ _ _ => false }

/-- An empty store seeded with one user. -/
def wEmptyStore : DBState :=
  { users := [⟨1, none⟩], labels := [], threads := [],
    threadLabels := [], messages := [], attachments := [], syncLogs := [],
    nextLabelId := 1, nextThreadId := 1, nextMessageId := 1,
    nextAttachmentId := 1, nextSyncLogId := 1 }

/-- A thread row of user 1, last seen before the next cycle start. -/
def wThreadRow : ThreadRow :=
  { id := 1, gmailThreadId := "t1", userId := 1, historyId := none,
    lastMessageDate := 0, isUnread := false, isStarred := false,
    isImportant := false, isDraft := false, lastSeenAt := 50 }

/-- A store holding `wThreadRow`. -/
def wStore1 : DBState :=
  { wEmptyStore with threads := [wThreadRow], nextThreadId := 2 }

/-- A remote thread with the same remote id as `wThreadRow` and no
messages. -/
def wGt : GmailThread := { id := "t1", historyId := none, messages := [] }

/-- Two label rows with the same remote label id owned by two different
users. -/
def c7Store : DBState :=
  { wEmptyStore with
      users := [⟨1, none⟩, ⟨2, none⟩],
      labels := [⟨1, 1, "L", "L", "system"⟩, ⟨2, 2, "L", "L", "system"⟩],
      nextLabelId := 3 }

/-- A plain message tagged with remote label `L`. -/
def c7Msg : GmailMsg :=
  { id := "m1", labelIds := some ["L"], snippet := "", internalDate := 10,
    payload := .node "0" "text/plain" none [] none [] }

/-- A remote thread of one `L`-labelled message. -/
def c7Thread : GmailThread := { id := "tc7", historyId := none, messages := [c7Msg] }

/-- A message with a real HTML body. -/
def c3Msg : GmailMsg :=
  { id := "m1", labelIds := some [], snippet := "s", internalDate := 10,
    payload := .node "0" "text/html" none []
      (some { attachmentId := none, size := 9, data := some "PGI+aGk8L2I+" }) [] }

/-- A remote thread holding `c3Msg`. -/
def c3Thread : GmailThread := { id := "t3", historyId := none, messages := [c3Msg] }

/-- The environment where every body upload to S3 fails. -/
def c3Env : SyncEnv :=
  { wEnvNoFail with threads := [c3Thread], bodyUploadFail := fun _ _ => true }

/-- The no-failure environment carrying one remote thread, for the
idempotence runs. -/
def c2Env : SyncEnv := { wEnvNoFail with threads := [c3Thread] }

/-- The body key stored by `syncMessage`: the S3 key when the extracted
HTML body is truthy, `null` otherwise. -/
def bodyKeyFor (userId : Nat) (g : GmailMsg) : Option String :=
  match strTruthy (extractHtmlBody g.payload) with
  | some _ => some (generateEmailBodyKey userId g.id)
  | none => none

/-- A message whose only part is one attachment (`a1`). -/
def c5Msg : GmailMsg :=
  { id := "m5", labelIds := some [], snippet := "s", internalDate := 10,
    payload := .node "0" "multipart/mixed" none [] none
      [ .node "0.1" "application/pdf" (some "f.pdf") []
          (some { attachmentId := some "a1", size := 5, data := none }) [] ] }

/-- The environment where fetching attachment `a1` fails. -/
def c5Env : SyncEnv :=
  { wEnvNoFail with attachmentFetchFail := fun _ a => a == "a1" }

/-! ## Frame relations between states

Each layer of the engine can touch only some tables; the proofs track
this through three nested frames. -/

/-- Frame of the attachment loop: everything except `attachments` and its
counter is untouched. -/
def attFrame (st st' : DBState) : Prop :=
  st'.users = st.users ∧ st'.labels = st.labels ∧ st'.threads = st.threads
  ∧ st'.threadLabels = st.threadLabels ∧ st'.messages = st.messages
  ∧ st'.syncLogs = st.syncLogs ∧ st'.nextLabelId = st.nextLabelId
  ∧ st'.nextThreadId = st.nextThreadId ∧ st'.nextMessageId = st.nextMessageId
  ∧ st'.nextSyncLogId = st.nextSyncLogId

/-- Frame of the message layer: threads, labels, users, audit rows
untouched. -/
def msgFrame (st st' : DBState) : Prop :=
  st'.users = st.users ∧ st'.labels = st.labels ∧ st'.threads = st.threads
  ∧ st'.threadLabels = st.threadLabels ∧ st'.syncLogs = st.syncLogs
  ∧ st'.nextLabelId = st.nextLabelId ∧ st'.nextThreadId = st.nextThreadId
  ∧ st'.nextSyncLogId = st.nextSyncLogId

/-- Frame of the thread layer: users, labels, audit rows untouched. -/
def thFrame (st st' : DBState) : Prop :=
  st'.users = st.users ∧ st'.labels = st.labels ∧ st'.syncLogs = st.syncLogs
  ∧ st'.nextLabelId = st.nextLabelId ∧ st'.nextSyncLogId = st.nextSyncLogId

/-- Frame of the label loop: only `labels` and its counter can move. -/
def lblFrame (st st' : DBState) : Prop :=
  st'.users = st.users ∧ st'.threads = st.threads
  ∧ st'.threadLabels = st.threadLabels ∧ st'.messages = st.messages
  ∧ st'.attachments = st.attachments ∧ st'.syncLogs = st.syncLogs
  ∧ st'.nextThreadId = st.nextThreadId ∧ st'.nextMessageId = st.nextMessageId
  ∧ st'.nextAttachmentId = st.nextAttachmentId
  ∧ st'.nextSyncLogId = st.nextSyncLogId

/-! # Theorems -/

/-! ## Filename sanitization (C9) -/

theorem replaceUnsafe_safe (c : Char) : isSafeChar (replaceUnsafe c) = true := by
  unfold replaceUnsafe
  split
  · assumption
  · decide

theorem mem_dropWhile_sub {α : Type} (p : α → Bool) (l : List α) {c : α}
    (h : c ∈ l.dropWhile p) : c ∈ l := by
  induction l with
  | nil => simp [List.dropWhile] at h
  | cons a l ih =>
    rw [List.dropWhile] at h
    cases hp : p a
    · rw [hp] at h; simpa using h
    · rw [hp] at h; exact List.mem_cons_of_mem a (ih h)

theorem mem_collapseUnderscores {c : Char} (l : List Char)
    (h : c ∈ collapseUnderscores l) : c ∈ l ∨ c = '_' := by
  induction l using collapseUnderscores.induct with
  | case1 => simp [collapseUnderscores] at h
  | case2 rest ih =>
    rw [collapseUnderscores] at h
    rcases List.mem_cons.mp h with h1 | h2
    · exact Or.inr h1
    · rcases ih h2 with h3 | h3
      · exact Or.inl (List.mem_cons_of_mem _ (mem_dropWhile_sub _ _ h3))
      · exact Or.inr h3
  | case3 a rest hne ih =>
    rw [collapseUnderscores] at h
    · rcases List.mem_cons.mp h with h1 | h2
      · exact Or.inl (h1 ▸ List.mem_cons_self _ _)
      · rcases ih h2 with h3 | h3
        · exact Or.inl (List.mem_cons_of_mem _ h3)
        · exact Or.inr h3
    · exact hne

theorem sanitizeFilename_chars (f : String) :
    ∀ c ∈ (sanitizeFilename f).toList, isSafeChar c = true := by
  intro c hc
  have hc' : c ∈ collapseUnderscores (f.toList.map replaceUnsafe) := by
    have : (sanitizeFilename f).toList
        = (collapseUnderscores (f.toList.map replaceUnsafe)).take 255 := rfl
    rw [this] at hc
    exact List.take_subset _ _ hc
  rcases mem_collapseUnderscores _ hc' with h | h
  · rcases List.mem_map.mp h with ⟨a, _, ha⟩
    rw [← ha]; exact replaceUnsafe_safe a
  · rw [h]; decide

theorem sanitizeFilename_length (f : String) : (sanitizeFilename f).length ≤ 255 := by
  have : (sanitizeFilename f).length
      = ((collapseUnderscores (f.toList.map replaceUnsafe)).take 255).length := rfl
  rw [this, List.length_take]
  exact min_le_left _ _

theorem generateAttachmentKey_length (userId : Nat) (messageId attachmentId filename : String) :
    (generateAttachmentKey userId messageId attachmentId filename).length
      = 22 + (toString userId).length + messageId.length + attachmentId.length
        + (sanitizeFilename filename).length := by
  simp only [generateAttachmentKey, String.length_append]
  have h1 : ("emails/" : String).length = 7 := rfl
  have h2 : ("/attachments/" : String).length = 13 := rfl
  have h3 : ("/" : String).length = 1 := rfl
  omega

/-- C9: for every input filename — including ones with characters outside
`[A-Za-z0-9._-]` — the sanitized filename segment of the generated
attachment S3 key contains only safe characters; the key stays within
S3's 1024-character key bound whenever the fixed id components leave the
255 sanitized characters room for it; and the key is a deterministic
function of the `(userId, remoteMessageId, remoteAttachmentId, filename)`
tuple. -/
theorem attachment_key_sanitized (userId : Nat)
    (messageId attachmentId filename : String) :
    (∀ c ∈ (sanitizeFilename filename).toList, isSafeChar c = true)
    ∧ ((toString userId).length + messageId.length + attachmentId.length ≤ 747 →
        (generateAttachmentKey userId messageId attachmentId filename).length ≤ 1024)
    ∧ (∀ u' m' a' f', userId = u' → messageId = m' → attachmentId = a' →
        filename = f' →
        generateAttachmentKey userId messageId attachmentId filename
          = generateAttachmentKey u' m' a' f') := by
  refine ⟨sanitizeFilename_chars filename, fun hb => ?_, ?_⟩
  · have h1 := sanitizeFilename_length filename
    have h2 := generateAttachmentKey_length userId messageId attachmentId filename
    omega
  · intro u' m' a' f' hu hm ha hf
    rw [hu, hm, ha, hf]

theorem attachment_key_sanitized_witness :
    ((toString 5).length + "msgX".length + "attY".length ≤ 747)
    ∧ (generateAttachmentKey 5 "msgX" "attY" "rés umé?.pdf").length ≤ 1024 :=
  ⟨by decide,
   (attachment_key_sanitized 5 "msgX" "attY" "rés umé?.pdf").2.1 (by decide)⟩

/-! ## Body extraction (C8) -/

mutual

theorem extractHtmlBody_sound (p : Payload) {s : String}
    (h : extractHtmlBody p = some s) :
    ∃ d ∈ htmlDatas p, s = decodeBase64Utf8 d := by
  match p with
  | .node pid mt fn hdrs bd parts =>
    rw [extractHtmlBody] at h
    rw [htmlDatas]
    cases hbd : bodyDataTruthy bd with
    | none =>
      simp only [hbd] at h
      obtain ⟨d, hd, hs⟩ := extractHtmlBodyList_sound parts h
      exact ⟨d, by simp [hd], hs⟩
    | some d0 =>
      simp only [hbd] at h
      by_cases hmt : mt = "text/html"
      · rw [if_pos hmt] at h
        refine ⟨d0, ?_, (Option.some.injEq _ _ ▸ h).symm⟩
        simp [hbd, hmt]
      · rw [if_neg hmt] at h
        obtain ⟨d, hd, hs⟩ := extractHtmlBodyList_sound parts h
        exact ⟨d, by simp [hbd, hmt, hd], hs⟩

theorem extractHtmlBodyList_sound (l : List Payload) {s : String}
    (h : extractHtmlBodyList l = some s) :
    ∃ d ∈ htmlDatasList l, s = decodeBase64Utf8 d := by
  match l with
  | [] => simp [extractHtmlBodyList] at h
  | p :: ps =>
    rw [extractHtmlBodyList] at h
    rw [htmlDatasList]
    cases hp : extractHtmlBody p with
    | none =>
      simp only [hp] at h
      obtain ⟨d, hd, hs⟩ := extractHtmlBodyList_sound ps h
      exact ⟨d, by simp [hd], hs⟩
    | some s0 =>
      simp only [hp] at h
      by_cases hs0 : s0 ≠ ""
      · rw [if_pos hs0] at h
        have hss : s0 = s := Option.some.inj h
        obtain ⟨d, hd, hs⟩ := extractHtmlBody_sound p hp
        exact ⟨d, by simp [hd], by rw [← hss]; exact hs⟩
      · rw [if_neg hs0] at h
        obtain ⟨d, hd, hs⟩ := extractHtmlBodyList_sound ps h
        exact ⟨d, by simp [hd], hs⟩

end

mutual

theorem extractHtmlBody_none (p : Payload) (h : htmlDatas p = []) :
    extractHtmlBody p = none := by
  match p with
  | .node pid mt fn hdrs bd parts =>
    rw [htmlDatas] at h
    rw [extractHtmlBody]
    cases hbd : bodyDataTruthy bd with
    | none =>
      simp only [hbd, List.nil_append] at h
      simp only [hbd]
      exact extractHtmlBodyList_none parts h
    | some d0 =>
      simp only [hbd] at h
      simp only [hbd]
      by_cases hmt : mt = "text/html"
      · rw [if_pos hmt] at h; simp at h
      · rw [if_neg hmt, List.nil_append] at h
        rw [if_neg hmt]
        exact extractHtmlBodyList_none parts h

theorem extractHtmlBodyList_none (l : List Payload) (h : htmlDatasList l = []) :
    extractHtmlBodyList l = none := by
  match l with
  | [] => rfl
  | p :: ps =>
    rw [htmlDatasList, List.append_eq_nil] at h
    rw [extractHtmlBodyList]
    simp only [extractHtmlBody_none p h.1]
    exact extractHtmlBodyList_none ps h.2

end

theorem goodHtml_skip (p : Payload) (h : goodHtml p = false) :
    extractHtmlBody p = none ∨ extractHtmlBody p = some "" := by
  cases hx : extractHtmlBody p with
  | none => exact Or.inl rfl
  | some s =>
    refine Or.inr ?_
    obtain ⟨d, hd, rfl⟩ := extractHtmlBody_sound p hx
    unfold goodHtml at h
    rw [List.any_eq_false] at h
    have h3 : decodeBase64Utf8 d = "" := by simpa using h d hd
    rw [h3]

theorem extractHtmlBodyList_finds (l₁ l₂ : List Payload) (hp : Payload)
    {s : String} (h₁ : ∀ q ∈ l₁, goodHtml q = false)
    (hhp : extractHtmlBody hp = some s) (hs : s ≠ "") :
    extractHtmlBodyList (l₁ ++ hp :: l₂) = some s := by
  induction l₁ with
  | nil =>
    rw [List.nil_append, extractHtmlBodyList]
    simp only [hhp]
    rw [if_pos hs]
  | cons q qs ih =>
    rw [List.cons_append, extractHtmlBodyList]
    rcases goodHtml_skip q (h₁ q (List.mem_cons_self _ _)) with hq | hq
    · simp only [hq]
      exact ih (fun r hr => h₁ r (List.mem_cons_of_mem _ hr))
    · simp only [hq]
      rw [if_neg (by simp)]
      exact ih (fun r hr => h₁ r (List.mem_cons_of_mem _ hr))

/-- C8 (amended): in a MIME tree whose root is not itself a truthy
`text/html` leaf, a `text/html` part with truthy data decoding to a
non-empty string — preceded only by parts containing no such HTML data,
e.g. `text/plain` parts — is found, and its decoded content (never the
plain-text content) is returned; parts whose data decodes to the empty
string are skipped because the extractor re-checks JavaScript truthiness
on each recursive result. In a tree with no truthy `text/html` data
anywhere the extractor returns null rather than throwing. -/
theorem html_body_extraction :
    (∀ (pid mt : String) (fn : Option String) (hdrs : List GmailHeader)
        (bd : Option GmailBody) (l₁ l₂ : List Payload) (hp : Payload) (d : String),
      ¬(mt = "text/html" ∧ (bodyDataTruthy bd).isSome = true) →
      (∀ q ∈ l₁, goodHtml q = false) →
      hp.mimeType = "text/html" →
      bodyDataTruthy hp.body = some d →
      decodeBase64Utf8 d ≠ "" →
      extractHtmlBody (.node pid mt fn hdrs bd (l₁ ++ hp :: l₂))
        = some (decodeBase64Utf8 d))
    ∧ (∀ p : Payload, htmlDatas p = [] → extractHtmlBody p = none) := by
  constructor
  · intro pid mt fn hdrs bd l₁ l₂ hp d hroot h₁ hmt hdata hdec
    have hhp : extractHtmlBody hp = some (decodeBase64Utf8 d) := by
      match hp, hmt, hdata with
      | .node pid2 mt2 fn2 hdrs2 bd2 parts2, hmt, hdata =>
        rw [extractHtmlBody]
        have hd2 : bodyDataTruthy bd2 = some d := hdata
        have hm2 : mt2 = "text/html" := hmt
        simp only [hd2]
        rw [if_pos hm2]
    rw [extractHtmlBody]
    cases hbd : bodyDataTruthy bd with
    | none =>
      simp only [hbd]
      exact extractHtmlBodyList_finds l₁ l₂ hp h₁ hhp hdec
    | some d0 =>
      have hmt' : ¬(mt = "text/html") := by
        intro hc
        exact hroot ⟨hc, by rw [hbd]; rfl⟩
      simp only [hbd]
      rw [if_neg hmt']
      exact extractHtmlBodyList_finds l₁ l₂ hp h₁ hhp hdec
  · exact extractHtmlBody_none

/-- C8 counterexample: a tree with a `text/plain` part listed before a
`text/html` part with data, where the extractor returns `none` instead of
the decoded (empty) content of the HTML part. -/
theorem html_body_extraction_counterexample :
    extractHtmlBody
        (.node "0" "multipart/alternative" none [] none [plainPart, emptyHtmlPart])
      = none
    ∧ (none : Option String) ≠ some (decodeBase64Utf8 "A") := by
  exact ⟨rfl, by simp⟩

theorem html_body_extraction_witness :
    extractHtmlBody
        (.node "0" "multipart/alternative" none [] none [plainPart, goodHtmlPart])
      = some (decodeBase64Utf8 "PGI+aGk8L2I+")
    ∧ extractHtmlBody plainPart = none :=
  ⟨html_body_extraction.1 "0" "multipart/alternative" none [] none
      [plainPart] [] goodHtmlPart "PGI+aGk8L2I+" (by decide) (by decide) rfl rfl
      (by decide),
   html_body_extraction.2 plainPart (by decide)⟩

/-! ## Frame lemmas -/

theorem attFrame_refl (st : DBState) : attFrame st st := by
  unfold attFrame; tauto

theorem attFrame_trans {s1 s2 s3 : DBState} (h1 : attFrame s1 s2)
    (h2 : attFrame s2 s3) : attFrame s1 s3 := by
  unfold attFrame at *
  obtain ⟨a1, a2, a3, a4, a5, a6, a7, a8, a9, a10⟩ := h1
  obtain ⟨b1, b2, b3, b4, b5, b6, b7, b8, b9, b10⟩ := h2
  exact ⟨b1.trans a1, b2.trans a2, b3.trans a3, b4.trans a4, b5.trans a5,
    b6.trans a6, b7.trans a7, b8.trans a8, b9.trans a9, b10.trans a10⟩

theorem attFrame.toMsg {s1 s2 : DBState} (h : attFrame s1 s2) : msgFrame s1 s2 := by
  unfold attFrame at h; unfold msgFrame; tauto

theorem msgFrame_refl (st : DBState) : msgFrame st st := by
  unfold msgFrame; tauto

theorem msgFrame_trans {s1 s2 s3 : DBState} (h1 : msgFrame s1 s2)
    (h2 : msgFrame s2 s3) : msgFrame s1 s3 := by
  unfold msgFrame at *
  obtain ⟨a1, a2, a3, a4, a5, a6, a7, a8⟩ := h1
  obtain ⟨b1, b2, b3, b4, b5, b6, b7, b8⟩ := h2
  exact ⟨b1.trans a1, b2.trans a2, b3.trans a3, b4.trans a4, b5.trans a5,
    b6.trans a6, b7.trans a7, b8.trans a8⟩

theorem msgFrame.toTh {s1 s2 : DBState} (h : msgFrame s1 s2) : thFrame s1 s2 := by
  unfold msgFrame at h; unfold thFrame; tauto

theorem thFrame_refl (st : DBState) : thFrame st st := by
  unfold thFrame; tauto

theorem thFrame_trans {s1 s2 s3 : DBState} (h1 : thFrame s1 s2)
    (h2 : thFrame s2 s3) : thFrame s1 s3 := by
  unfold thFrame at *
  obtain ⟨a1, a2, a3, a4, a5⟩ := h1
  obtain ⟨b1, b2, b3, b4, b5⟩ := h2
  exact ⟨b1.trans a1, b2.trans a2, b3.trans a3, b4.trans a4, b5.trans a5⟩

theorem syncOneAttachment_attFrame (u : Nat) (mid : String) (nid : Nat)
    (part : Payload) (env : SyncEnv) (st : DBState) :
    attFrame st (syncOneAttachment u mid nid part env st).1 := by
  unfold syncOneAttachment attFrame
  cases hb : bodyAttachmentIdTruthy part.body with
  | none => simp [hb]
  | some aid =>
    simp only [hb]
    split_ifs <;> simp

theorem attachmentLoop_attFrame (u : Nat) (mid : String) (nid : Nat)
    (parts : List Payload) (env : SyncEnv) (st : DBState) :
    attFrame st (attachmentLoop u mid nid parts env st).1 := by
  induction parts generalizing st with
  | nil => exact attFrame_refl st
  | cons part rest ih =>
    rw [attachmentLoop]
    exact attFrame_trans (syncOneAttachment_attFrame u mid nid part env st) (ih _)

theorem finishMessage_msgFrame (u tid : Nat) (g : GmailMsg)
    (key : Option String) (env : SyncEnv) (st : DBState) :
    msgFrame st (finishMessage u tid g key env st).1 := by
  unfold finishMessage
  refine msgFrame_trans ?_
    ((attachmentLoop_attFrame u g.id _ _ env _).toMsg)
  unfold msgFrame; simp

theorem syncMessage_msgFrame (u tid : Nat) (g : GmailMsg) (env : SyncEnv)
    (st : DBState) : msgFrame st (syncMessage u tid g env st).1 := by
  unfold syncMessage
  split
  · exact msgFrame_refl st
  · split
    · split
      · exact msgFrame_refl st
      · exact finishMessage_msgFrame u tid g _ env st
    · exact finishMessage_msgFrame u tid g _ env st

theorem msgLoop_msgFrame (u tid : Nat) (msgs : List GmailMsg) (env : SyncEnv)
    (st : DBState) : msgFrame st (msgLoop u tid msgs env st).1 := by
  induction msgs generalizing st with
  | nil => exact msgFrame_refl st
  | cons g rest ih =>
    rw [msgLoop]
    rcases hm : syncMessage u tid g env st with ⟨s', r⟩
    have h1 : msgFrame st s' := by
      have := syncMessage_msgFrame u tid g env st
      rw [hm] at this
      exact this
    cases r
    · exact msgFrame_trans h1 (ih s')
    · exact msgFrame_trans h1 (ih s')

theorem syncThreadLabels_spec (tid : Nat) (msgs : List GmailMsg) (st : DBState) :
    syncThreadLabels tid msgs st
      = { st with threadLabels := st.threadLabels ++ threadLabelInserts tid msgs st.labels } := by
  unfold syncThreadLabels
  dsimp only
  split
  · rfl
  · rename_i h
    rw [Nat.not_lt, Nat.le_zero, List.length_eq_zero] at h
    rw [h, List.append_nil]

theorem syncThreadLabels_thFrame (tid : Nat) (msgs : List GmailMsg) (st : DBState) :
    thFrame st (syncThreadLabels tid msgs st) := by
  rw [syncThreadLabels_spec]
  unfold thFrame
  simp

theorem thFrame_setThreads (st : DBState) (ths : List ThreadRow) (n : Nat) :
    thFrame st { st with threads := ths, nextThreadId := n } := by
  unfold thFrame; simp

theorem syncThread_thFrame (u : Nat) (gt : GmailThread) (T0 : Nat)
    (env : SyncEnv) (st : DBState) :
    thFrame st (syncThread u gt T0 env st).1 := by
  unfold syncThread
  split
  · split
    · exact thFrame_refl st
    · exact thFrame_trans
        (thFrame_trans (thFrame_setThreads st _ _) (syncThreadLabels_thFrame _ _ _))
        ((msgLoop_msgFrame _ _ _ _ _).toTh)
  · exact thFrame_trans (thFrame_setThreads st _ _)
      ((msgLoop_msgFrame _ _ _ _ _).toTh)

theorem threadsPhase_thFrame (u T0 : Nat) (gts : List GmailThread)
    (env : SyncEnv) (st : DBState) :
    thFrame st (threadsPhase u T0 gts env st).1 := by
  induction gts generalizing st with
  | nil => exact thFrame_refl st
  | cons gt rest ih =>
    rw [threadsPhase]
    rcases hs : syncThread u gt T0 env st with ⟨s', r⟩
    have h1 : thFrame st s' := by
      have := syncThread_thFrame u gt T0 env st
      rw [hs] at this
      exact this
    cases r
    · exact thFrame_trans h1 (ih s')
    · exact thFrame_trans h1 (ih s')

theorem cleanup_thFrame (u T0 : Nat) (st : DBState) :
    thFrame st (cleanupDeletedThreads u T0 st).1 := by
  unfold cleanupDeletedThreads
  dsimp only
  split
  · unfold thFrame; simp
  · exact thFrame_refl st

theorem lblFrame_refl (st : DBState) : lblFrame st st := by
  unfold lblFrame; tauto

theorem lblFrame_trans {s1 s2 s3 : DBState} (h1 : lblFrame s1 s2)
    (h2 : lblFrame s2 s3) : lblFrame s1 s3 := by
  unfold lblFrame at *
  obtain ⟨a1, a2, a3, a4, a5, a6, a7, a8, a9, a10⟩ := h1
  obtain ⟨b1, b2, b3, b4, b5, b6, b7, b8, b9, b10⟩ := h2
  exact ⟨b1.trans a1, b2.trans a2, b3.trans a3, b4.trans a4, b5.trans a5,
    b6.trans a6, b7.trans a7, b8.trans a8, b9.trans a9, b10.trans a10⟩

theorem lblFrame_setLabels (st : DBState) (ls : List LabelRow) (n : Nat) :
    lblFrame st { st with labels := ls, nextLabelId := n } := by
  unfold lblFrame; simp

theorem labelsLoop_lblFrame (u : Nat) (gls : List GmailLabel) (st : DBState) :
    lblFrame st (labelsLoop u gls st) := by
  induction gls generalizing st with
  | nil => exact lblFrame_refl st
  | cons g rest ih =>
    rw [labelsLoop]
    split
    · exact ih st
    · exact lblFrame_trans (lblFrame_setLabels st _ _) (ih _)

/-- Everything `syncUser` needs about a successful cycle: when the user
row exists and neither the label- nor the thread-listing fails, the
result is a success payload. -/
theorem syncUser_success (u T0 T1 : Nat) (env : SyncEnv) (st : DBState)
    (hu : st.users.any (fun x => x.id == u) = true)
    (hl : env.labelsFail = false) (ht : env.threadsFail = false) :
    (syncUser u T0 T1 env st).2
      = { success := true,
          threadsSynced := (threadsPhase u T0 (env.threads.take 1000) env
            (labelsLoop u env.gmailLabels (startSyncLog u "full" st).1)).2.threadsSynced,
          messagesSynced := (threadsPhase u T0 (env.threads.take 1000) env
            (labelsLoop u env.gmailLabels (startSyncLog u "full" st).1)).2.messagesSynced,
          attachmentsSynced := (threadsPhase u T0 (env.threads.take 1000) env
            (labelsLoop u env.gmailLabels (startSyncLog u "full" st).1)).2.attachmentsSynced,
          error := none } := by
  have hany : ((startSyncLog u "full" st).1.users.any fun x => x.id == u) = true := by
    unfold startSyncLog
    simpa using hu
  unfold syncUser syncLabels
  simp only [hany, hl, ht, Bool.not_true, Bool.false_eq_true, if_false]

/-! ## `syncThread` path lemmas -/

theorem syncThread_emptyNew (u : Nat) (gt : GmailThread) (T0 : Nat)
    (env : SyncEnv) (st : DBState)
    (hfil : st.threads.filter (fun t =>
      t.userId == u && t.gmailThreadId == gt.id) = [])
    (hmsgs : gt.messages = []) :
    syncThread u gt T0 env st
      = (st, .error "Cannot read properties of undefined (reading 'internalDate')") := by
  unfold syncThread
  simp only [hfil, hmsgs, List.getLast?_nil]

theorem syncThread_new_threads (u : Nat) (gt : GmailThread) (T0 : Nat)
    (env : SyncEnv) (st : DBState) (lm : GmailMsg)
    (hfil : st.threads.filter (fun t =>
      t.userId == u && t.gmailThreadId == gt.id) = [])
    (hlast : gt.messages.getLast? = some lm) :
    (syncThread u gt T0 env st).1.threads
      = st.threads ++ [newThreadRow u gt lm T0 st] := by
  unfold syncThread
  simp only [hfil, hlast]
  rw [(msgLoop_msgFrame u _ gt.messages env _).2.2.1, syncThreadLabels_spec]

theorem syncThread_new_threadLabels (u : Nat) (gt : GmailThread) (T0 : Nat)
    (env : SyncEnv) (st : DBState) (lm : GmailMsg)
    (hfil : st.threads.filter (fun t =>
      t.userId == u && t.gmailThreadId == gt.id) = [])
    (hlast : gt.messages.getLast? = some lm) :
    (syncThread u gt T0 env st).1.threadLabels
      = st.threadLabels ++ threadLabelInserts st.nextThreadId gt.messages st.labels := by
  unfold syncThread
  simp only [hfil, hlast]
  rw [(msgLoop_msgFrame u _ gt.messages env _).2.2.2.1, syncThreadLabels_spec]
  simp [newThreadRow]

theorem syncThread_new_ok (u : Nat) (gt : GmailThread) (T0 : Nat)
    (env : SyncEnv) (st : DBState) (lm : GmailMsg)
    (hfil : st.threads.filter (fun t =>
      t.userId == u && t.gmailThreadId == gt.id) = [])
    (hlast : gt.messages.getLast? = some lm) :
    ∃ c : SyncCounts, (syncThread u gt T0 env st).2 = .ok c
      ∧ c.threadsSynced = 1 := by
  unfold syncThread
  simp only [hfil, hlast]
  exact ⟨_, rfl, rfl⟩

theorem syncThread_existing (u : Nat) (gt : GmailThread) (T0 : Nat)
    (env : SyncEnv) (st : DBState) (t0 : ThreadRow) (rest : List ThreadRow)
    (hfil : st.threads.filter (fun t =>
      t.userId == u && t.gmailThreadId == gt.id) = t0 :: rest) :
    (syncThread u gt T0 env st).1.threads
        = st.threads.map (fun r =>
            if r.id == t0.id then { r with lastSeenAt := T0 } else r)
      ∧ (syncThread u gt T0 env st).1.threadLabels = st.threadLabels
      ∧ (syncThread u gt T0 env st).1.messages
          = (msgLoop u t0.id gt.messages env
              { st with threads := st.threads.map (fun r =>
                  if r.id == t0.id then { r with lastSeenAt := T0 } else r) }).1.messages
      ∧ ∃ c : SyncCounts, (syncThread u gt T0 env st).2 = .ok c
          ∧ c.threadsSynced = 0 := by
  unfold syncThread
  simp only [hfil]
  refine ⟨?_, ?_, ?_, ?_⟩
  · rw [(msgLoop_msgFrame u _ gt.messages env _).2.2.1]
  · rw [(msgLoop_msgFrame u _ gt.messages env _).2.2.2.1]
  · trivial
  · exact ⟨_, rfl, rfl⟩

/-! ## Keyed lookup under uniqueness -/

theorem filter_eq_singleton_of_pairwise {α : Type} (l : List α) (p : α → Bool)
    (hp : l.Pairwise (fun a b => ¬(p a = true ∧ p b = true)))
    (x : α) (hx : x ∈ l) (hpx : p x = true) :
    l.filter p = [x] := by
  induction l with
  | nil => cases hx
  | cons a l ih =>
    rw [List.pairwise_cons] at hp
    rcases List.mem_cons.mp hx with rfl | hx'
    · have hnil : l.filter p = [] := by
        rw [List.filter_eq_nil_iff]
        exact fun b hb hpb => hp.1 b hb ⟨hpx, hpb⟩
      simp [List.filter_cons, hpx, hnil]
    · have hpa : ¬(p a = true) := fun hpa => hp.1 x hx' ⟨hpa, hpx⟩
      simp only [List.filter_cons, if_neg hpa]
      exact ih hp.2 hx'

theorem thread_filter_singleton (userId : Nat) (gid : String) (st : DBState)
    (hkey : st.threads.Pairwise (fun a b =>
      ¬(a.userId = b.userId ∧ a.gmailThreadId = b.gmailThreadId)))
    (t0 : ThreadRow) (hmem : t0 ∈ st.threads) (hu : t0.userId = userId)
    (hg : t0.gmailThreadId = gid) :
    st.threads.filter (fun t => t.userId == userId && t.gmailThreadId == gid)
      = [t0] := by
  refine filter_eq_singleton_of_pairwise _ _ (hkey.imp ?_) t0 hmem
    (by simp [hu, hg])
  intro a b hab hc
  obtain ⟨hpa, hpb⟩ := hc
  simp only [Bool.and_eq_true, beq_iff_eq] at hpa hpb
  exact hab ⟨hpa.1.trans hpb.1.symm, hpa.2.trans hpb.2.symm⟩

/-! ## Claim C4: re-observing an existing conversation -/

/-- C4: when a cycle processes a conversation that already has a local row
matched by `(userId, gmailThreadId)`, the `threads` table afterwards is
exactly the old table with only that row's `lastSeenAt` replaced by the
cycle start — flags, `historyId` and `lastMessageDate` are untouched — and
the conversation–label association table is completely unchanged. -/
theorem existing_conversation_frame (userId T0 : Nat) (gt : GmailThread)
    (env : SyncEnv) (st : DBState) (t0 : ThreadRow)
    (hkey : st.threads.Pairwise (fun a b =>
      ¬(a.userId = b.userId ∧ a.gmailThreadId = b.gmailThreadId)))
    (hmem : t0 ∈ st.threads) (hu : t0.userId = userId)
    (hg : t0.gmailThreadId = gt.id) :
    (syncThread userId gt T0 env st).1.threads
        = st.threads.map (fun r =>
            if r.id == t0.id then { r with lastSeenAt := T0 } else r)
      ∧ (syncThread userId gt T0 env st).1.threadLabels = st.threadLabels := by
  have hfil := thread_filter_singleton userId gt.id st hkey t0 hmem hu hg
  obtain ⟨h1, h2, _, _⟩ := syncThread_existing userId gt T0 env st t0 [] hfil
  exact ⟨h1, h2⟩

theorem existing_conversation_frame_witness :
    (syncThread 1 wGt 100 wEnvNoFail wStore1).1.threads
        = wStore1.threads.map (fun r =>
            if r.id == wThreadRow.id then { r with lastSeenAt := 100 } else r)
      ∧ (syncThread 1 wGt 100 wEnvNoFail wStore1).1.threadLabels
          = wStore1.threadLabels :=
  existing_conversation_frame 1 100 wGt wEnvNoFail wStore1 wThreadRow
    (by decide) (by decide) rfl rfl

/-! ## Claim C7: label resolution of a new conversation -/

/-- C7 (amended): for a newly inserted conversation the inserted
conversation–label association rows are exactly one row per `labels` row
— of any user, because `syncThreadLabels` filters on the remote
`labelId` alone with no `userId` condition — whose remote id occurs in
the union of the messages' label sets. -/
theorem thread_label_insert_scope (userId T0 : Nat) (gt : GmailThread)
    (env : SyncEnv) (st : DBState) (lm : GmailMsg)
    (hfil : st.threads.filter (fun t =>
      t.userId == userId && t.gmailThreadId == gt.id) = [])
    (hlast : gt.messages.getLast? = some lm) :
    (syncThread userId gt T0 env st).1.threadLabels
        = st.threadLabels ++ threadLabelInserts st.nextThreadId gt.messages st.labels
      ∧ ∀ tl ∈ threadLabelInserts st.nextThreadId gt.messages st.labels,
          ∃ l ∈ st.labels, tl.labelId = l.id
            ∧ (threadLabelIdSet gt.messages).contains l.labelId = true := by
  refine ⟨syncThread_new_threadLabels userId gt T0 env st lm hfil hlast, ?_⟩
  intro tl htl
  unfold threadLabelInserts at htl
  obtain ⟨l, hl, hrow⟩ := List.mem_map.mp htl
  exact ⟨l, (List.mem_filter.mp hl).1, by rw [← hrow], (List.mem_filter.mp hl).2⟩

theorem thread_label_insert_scope_witness :
    (syncThread 1 c7Thread 100 wEnvNoFail c7Store).1.threadLabels
      = c7Store.threadLabels
        ++ threadLabelInserts c7Store.nextThreadId c7Thread.messages c7Store.labels :=
  (thread_label_insert_scope 1 100 c7Thread wEnvNoFail c7Store c7Msg rfl rfl).1

/-- C7 counterexample: with two users each owning a label with remote id
`L`, syncing a new `L`-labelled conversation for user 1 inserts an
association row that references user 2's label row. -/
theorem thread_label_insert_scope_counterexample :
    ∃ tl ∈ (syncThread 1 c7Thread 100 wEnvNoFail c7Store).1.threadLabels,
      ∃ l ∈ (syncThread 1 c7Thread 100 wEnvNoFail c7Store).1.labels,
        tl.labelId = l.id ∧ l.userId ≠ 1 := by
  decide

/-! ## Claim C3: body upload failure -/

/-- C3 (amended): when the body upload for a message fails, `syncMessage`
fails with the upload error and leaves the store untouched — in
particular no Message row is created for it — and the per-message loop of
the enclosing thread swallows the failure and continues with the
remaining messages; the whole message is retried on a later cycle. -/
theorem body_upload_failure (userId threadId : Nat) (g : GmailMsg)
    (gs : List GmailMsg) (env : SyncEnv) (st : DBState)
    (hne : msgExists st threadId g.id = false)
    (hhtml : (strTruthy (extractHtmlBody g.payload)).isSome = true)
    (hfail : env.bodyUploadFail userId g.id = true) :
    syncMessage userId threadId g env st
        = (st, .error ("Failed to upload email body for message " ++ g.id))
      ∧ msgLoop userId threadId (g :: gs) env st
          = msgLoop userId threadId gs env st := by
  have h1 : syncMessage userId threadId g env st
      = (st, .error ("Failed to upload email body for message " ++ g.id)) := by
    unfold syncMessage
    rw [hne]
    simp only [Bool.false_eq_true, if_false]
    cases hs : strTruthy (extractHtmlBody g.payload) with
    | none => rw [hs] at hhtml; simp at hhtml
    | some b =>
      simp only [hs]
      rw [hfail]
      simp
  refine ⟨h1, ?_⟩
  rw [msgLoop]
  simp only [h1]

/-- C3 counterexample: a full cycle in which the only message's body
upload fails ends with status success but with no `messages` row at all —
the claim's "Message row still created with a null bodyS3Key" does not
hold. -/
theorem body_upload_failure_counterexample :
    (syncUser 1 100 101 c3Env wEmptyStore).1.messages = []
    ∧ (syncUser 1 100 101 c3Env wEmptyStore).2.success = true := by
  decide

theorem body_upload_failure_witness :
    msgExists wEmptyStore 7 c3Msg.id = false
    ∧ (strTruthy (extractHtmlBody c3Msg.payload)).isSome = true
    ∧ c3Env.bodyUploadFail 1 c3Msg.id = true
    ∧ syncMessage 1 7 c3Msg c3Env wEmptyStore
        = (wEmptyStore, .error ("Failed to upload email body for message " ++ c3Msg.id)) :=
  ⟨by decide, by decide, rfl,
   (body_upload_failure 1 7 c3Msg [] c3Env wEmptyStore (by decide) (by decide) rfl).1⟩

/-! ## Claim C6: cycle-level failures -/

theorem failed_log_exists (logId : Nat) (e : String) (T1 : Nat) (stX : DBState)
    (row0 : SyncLogRow) (hmem : row0 ∈ stX.syncLogs) (hid : row0.id = logId) :
    ∃ log ∈ (completeSyncLog logId "failed" 0 0 (some e) T1 stX).syncLogs,
      log.id = logId ∧ log.status = "failed" ∧ log.errorMessage = some e
      ∧ log.threadsSynced = 0 ∧ log.messagesSynced = 0
      ∧ log.completedAt = some T1 := by
  unfold completeSyncLog
  refine ⟨_, List.mem_map_of_mem _ hmem, ?_⟩
  simp [hid]

/-- C6: on any cycle-level error — user row missing, label listing
failure, or thread listing failure, the exceptions that escape to the
outer catch — `syncUser` returns `success = false` with the error message
and all three counters zero, and the cycle's audit row is finalized as
`failed` with that error message and zero counts. -/
theorem cycle_level_failure (userId T0 T1 : Nat) (env : SyncEnv) (st : DBState)
    (h : st.users.any (fun u => u.id == userId) = false
      ∨ env.labelsFail = true ∨ env.threadsFail = true) :
    (syncUser userId T0 T1 env st).2.success = false
    ∧ (syncUser userId T0 T1 env st).2.threadsSynced = 0
    ∧ (syncUser userId T0 T1 env st).2.messagesSynced = 0
    ∧ (syncUser userId T0 T1 env st).2.attachmentsSynced = 0
    ∧ ∃ e, (syncUser userId T0 T1 env st).2.error = some e
        ∧ ∃ log ∈ (syncUser userId T0 T1 env st).1.syncLogs,
            log.id = st.nextSyncLogId ∧ log.status = "failed"
            ∧ log.errorMessage = some e ∧ log.threadsSynced = 0
            ∧ log.messagesSynced = 0 ∧ log.completedAt = some T1 := by
  have hrow0 : (⟨st.nextSyncLogId, userId, "full", "running", none, none, 0, 0⟩ :
      SyncLogRow) ∈ (startSyncLog userId "full" st).1.syncLogs := by
    unfold startSyncLog
    simp
  by_cases hu : st.users.any (fun u => u.id == userId) = true
  · have hany : ((startSyncLog userId "full" st).1.users.any
        fun x => x.id == userId) = true := by
      unfold startSyncLog; simpa using hu
    by_cases hlf : env.labelsFail = true
    · unfold syncUser syncLabels
      simp only [hany, hlf, Bool.not_true, Bool.false_eq_true, if_false, if_true]
      refine ⟨rfl, rfl, rfl, rfl, "Failed to fetch Gmail labels", rfl, ?_⟩
      exact failed_log_exists _ _ T1 _ _ hrow0 rfl
    · have ht : env.threadsFail = true := by
        rcases h with h0 | h0 | h0
        · rw [h0] at hu; cases hu
        · exact absurd h0 hlf
        · exact h0
      have hlf' : env.labelsFail = false := by
        cases hx : env.labelsFail
        · rfl
        · exact absurd hx hlf
      unfold syncUser syncLabels
      simp only [hany, hlf', ht, Bool.not_true, Bool.false_eq_true, if_false, if_true]
      refine ⟨rfl, rfl, rfl, rfl, "Failed to fetch Gmail threads", rfl, ?_⟩
      refine failed_log_exists _ _ T1 _
        ⟨st.nextSyncLogId, userId, "full", "running", none, none, 0, 0⟩ ?_ rfl
      rw [(labelsLoop_lblFrame userId env.gmailLabels _).2.2.2.2.2.1]
      exact hrow0
  · have hany : ((startSyncLog userId "full" st).1.users.any
        fun x => x.id == userId) = false := by
      unfold startSyncLog
      simpa using (Bool.not_eq_true _).mp hu
    unfold syncUser
    simp only [hany, Bool.not_false, if_true]
    refine ⟨rfl, rfl, rfl, rfl, "User not found", rfl, ?_⟩
    exact failed_log_exists _ _ T1 _ _ hrow0 rfl

theorem cycle_level_failure_witness :
    (wEmptyStore.users.any (fun u => u.id == 2) = false)
    ∧ (syncUser 2 100 101 wEnvNoFail wEmptyStore).2.success = false :=
  ⟨by decide,
   (cycle_level_failure 2 100 101 wEnvNoFail wEmptyStore (Or.inl (by decide))).1⟩

/-! ## Shape of `syncUser`'s state -/

theorem completeSyncLog_threads (logId : Nat) (status : String) (ts ms : Nat)
    (err : Option String) (T1 : Nat) (st : DBState) :
    (completeSyncLog logId status ts ms err T1 st).threads = st.threads := rfl

theorem syncLabels_cases (u : Nat) (env : SyncEnv) (st : DBState) :
    (env.labelsFail = true
      ∧ syncLabels u env st = (st, .error "Failed to fetch Gmail labels"))
    ∨ (env.labelsFail = false
      ∧ syncLabels u env st = (labelsLoop u env.gmailLabels st, .ok ())) := by
  unfold syncLabels
  cases h : env.labelsFail
  · right; simp [h]
  · left; simp [h]

theorem syncUser_threads_shape (u T0 T1 : Nat) (env : SyncEnv) (st : DBState) :
    (syncUser u T0 T1 env st).1.threads = st.threads
    ∨ (syncUser u T0 T1 env st).1.threads
        = (cleanupDeletedThreads u T0 (threadsPhase u T0 (env.threads.take 1000) env
            (labelsLoop u env.gmailLabels (startSyncLog u "full" st).1)).1).1.threads := by
  unfold syncUser
  dsimp only
  split
  · left
    rw [completeSyncLog_threads]
    rfl
  · rcases syncLabels_cases u env (startSyncLog u "full" st).1 with ⟨hl, heq⟩ | ⟨hl, heq⟩
    · simp only [heq]
      left
      rw [completeSyncLog_threads]
      rfl
    · simp only [heq]
      split
      · left
        rw [completeSyncLog_threads]
        exact (labelsLoop_lblFrame u env.gmailLabels _).2.1
      · right
        rw [completeSyncLog_threads]

/-! ## Claim C10: empty remote message lists -/

theorem syncThread_noKey (u : Nat) (gt : GmailThread) (T0 : Nat) (env : SyncEnv)
    (st : DBState) (gid : String)
    (hpre : ∀ t ∈ st.threads, ¬(t.userId = u ∧ t.gmailThreadId = gid))
    (hgt : gt.id = gid → gt.messages = []) :
    ∀ t ∈ (syncThread u gt T0 env st).1.threads,
      ¬(t.userId = u ∧ t.gmailThreadId = gid) := by
  intro t ht
  rcases hfil : st.threads.filter (fun t =>
      t.userId == u && t.gmailThreadId == gt.id) with _ | ⟨t0, rest⟩
  · cases hmsgs : gt.messages with
    | nil =>
      rw [syncThread_emptyNew u gt T0 env st hfil hmsgs] at ht
      exact hpre t ht
    | cons m ms =>
      obtain ⟨lm, hlast⟩ : ∃ lm, gt.messages.getLast? = some lm := by
        rw [hmsgs]
        exact ⟨(m :: ms).getLast (by simp), List.getLast?_eq_getLast _ (by simp)⟩
      rw [syncThread_new_threads u gt T0 env st lm hfil hlast] at ht
      rcases List.mem_append.mp ht with h1 | h1
      · exact hpre t h1
      · rw [List.mem_singleton] at h1
        subst h1
        rintro ⟨hcu, hcg⟩
        have hgg : gt.id = gid := by simpa [newThreadRow] using hcg
        rw [hgt hgg] at hmsgs
        simp at hmsgs
  · obtain ⟨hth, _, _, _⟩ := syncThread_existing u gt T0 env st t0 rest hfil
    rw [hth] at ht
    obtain ⟨r, hr, hrt⟩ := List.mem_map.mp ht
    intro hc
    apply hpre r hr
    by_cases hid : (r.id == t0.id) = true
    · rw [if_pos hid] at hrt
      rw [← hrt] at hc
      simpa using hc
    · rw [if_neg hid] at hrt
      rw [← hrt] at hc
      exact hc

theorem threadsPhase_noKey (u T0 : Nat) (gts : List GmailThread) (env : SyncEnv)
    (st : DBState) (gid : String)
    (hgts : ∀ gt ∈ gts, gt.id = gid → gt.messages = [])
    (hpre : ∀ t ∈ st.threads, ¬(t.userId = u ∧ t.gmailThreadId = gid)) :
    ∀ t ∈ (threadsPhase u T0 gts env st).1.threads,
      ¬(t.userId = u ∧ t.gmailThreadId = gid) := by
  induction gts generalizing st with
  | nil => exact hpre
  | cons gt rest ih =>
    rw [threadsPhase]
    rcases hs : syncThread u gt T0 env st with ⟨s', r⟩
    have hs' : ∀ t ∈ s'.threads, ¬(t.userId = u ∧ t.gmailThreadId = gid) := by
      have h := syncThread_noKey u gt T0 env st gid hpre
        (hgts gt (List.mem_cons_self _ _))
      rw [hs] at h
      exact h
    simp only [hs]
    cases r with
    | ok c => exact ih s' (fun g hg => hgts g (List.mem_cons_of_mem _ hg)) hs'
    | error e => exact ih s' (fun g hg => hgts g (List.mem_cons_of_mem _ hg)) hs'

theorem cleanup_threads_sub (u T0 : Nat) (st : DBState) :
    ∀ t ∈ (cleanupDeletedThreads u T0 st).1.threads, t ∈ st.threads := by
  unfold cleanupDeletedThreads
  dsimp only
  split
  · intro t ht
    exact (List.mem_filter.mp ht).1
  · intro t ht
    exact ht

/-- C10: a remote conversation with an empty message list and no matching
local row makes `syncThread` throw before any insert (reading
`internalDate` of the missing last element), leaving the store unchanged;
the per-conversation handler swallows the error, so the cycle still
succeeds, and no Conversation row for that remote id is ever created;
and with a non-empty message list that error branch is unreachable —
`syncThread` always returns ok. -/
theorem empty_message_list_handling (userId T0 T1 : Nat) (gid : String)
    (env : SyncEnv) (st : DBState) :
    (∀ gt : GmailThread, gt.messages = [] →
      st.threads.filter (fun t =>
        t.userId == userId && t.gmailThreadId == gt.id) = [] →
      syncThread userId gt T0 env st
        = (st, .error "Cannot read properties of undefined (reading 'internalDate')"))
    ∧ ((∀ gt ∈ env.threads, gt.id = gid → gt.messages = []) →
      (∀ t ∈ st.threads, ¬(t.userId = userId ∧ t.gmailThreadId = gid)) →
      ∀ t ∈ (syncUser userId T0 T1 env st).1.threads,
        ¬(t.userId = userId ∧ t.gmailThreadId = gid))
    ∧ (∀ gt : GmailThread, gt.messages ≠ [] →
      ∃ c, (syncThread userId gt T0 env st).2 = Except.ok c)
    ∧ (st.users.any (fun x => x.id == userId) = true →
      env.labelsFail = false → env.threadsFail = false →
      (syncUser userId T0 T1 env st).2.success = true) := by
  refine ⟨?_, ?_, ?_, ?_⟩
  · intro gt hmsgs hfil
    exact syncThread_emptyNew userId gt T0 env st hfil hmsgs
  · intro hgts hpre
    rcases syncUser_threads_shape userId T0 T1 env st with hsh | hsh
    · rw [hsh]; exact hpre
    · rw [hsh]
      intro t ht
      refine threadsPhase_noKey userId T0 (env.threads.take 1000) env _ gid
        (fun g hg => hgts g (List.take_subset _ _ hg)) ?_ t
        (cleanup_threads_sub userId T0 _ t ht)
      have hth : (labelsLoop userId env.gmailLabels
          (startSyncLog userId "full" st).1).threads = st.threads :=
        (labelsLoop_lblFrame userId env.gmailLabels _).2.1
      rw [hth]
      exact hpre
  · intro gt hne
    rcases hfil : st.threads.filter (fun t =>
        t.userId == userId && t.gmailThreadId == gt.id) with _ | ⟨t0, rest⟩
    · cases hmsgs : gt.messages with
      | nil => exact absurd hmsgs hne
      | cons m ms =>
        obtain ⟨lm, hlast⟩ : ∃ lm, gt.messages.getLast? = some lm := by
          rw [hmsgs]
          exact ⟨(m :: ms).getLast (by simp), List.getLast?_eq_getLast _ (by simp)⟩
        obtain ⟨c, hc, _⟩ := syncThread_new_ok userId gt T0 env st lm hfil hlast
        exact ⟨c, hc⟩
    · obtain ⟨_, _, _, c, hc, _⟩ := syncThread_existing userId gt T0 env st t0 rest hfil
      exact ⟨c, hc⟩
  · intro hu hl ht
    rw [syncUser_success userId T0 T1 env st hu hl ht]

theorem empty_message_list_handling_witness :
    (syncThread 1 wGt 100 wEnvNoFail wEmptyStore
        = (wEmptyStore, .error "Cannot read properties of undefined (reading 'internalDate')"))
    ∧ (∃ c, (syncThread 1 c7Thread 100 wEnvNoFail wEmptyStore).2 = Except.ok c)
    ∧ (syncUser 1 100 101 wEnvNoFail wEmptyStore).2.success = true := by
  refine ⟨?_, ?_, ?_⟩
  · exact (empty_message_list_handling 1 100 101 "t1" wEnvNoFail wEmptyStore).1 wGt rfl rfl
  · exact (empty_message_list_handling 1 100 101 "t1" wEnvNoFail wEmptyStore).2.2.1
      c7Thread (List.cons_ne_nil _ _)
  · exact (empty_message_list_handling 1 100 101 "t1" wEnvNoFail
      wEmptyStore).2.2.2 (by decide) rfl rfl

/-! ## Claim C5: attachment failures are isolated -/

theorem syncMessage_creates (userId threadId : Nat) (g : GmailMsg)
    (env : SyncEnv) (st : DBState)
    (hne : msgExists st threadId g.id = false)
    (hb : env.bodyUploadFail userId g.id = false) :
    syncMessage userId threadId g env st
      = ((attachmentLoop userId g.id st.nextMessageId
            (extractAttachments g.payload) env
            { st with
                messages := st.messages
                  ++ [newMessageRow threadId g (bodyKeyFor userId g) st],
                nextMessageId := st.nextMessageId + 1 }).1,
         .ok (1, (attachmentLoop userId g.id st.nextMessageId
            (extractAttachments g.payload) env
            { st with
                messages := st.messages
                  ++ [newMessageRow threadId g (bodyKeyFor userId g) st],
                nextMessageId := st.nextMessageId + 1 }).2)) := by
  unfold syncMessage
  rw [hne]
  simp only [Bool.false_eq_true, if_false]
  cases hs : strTruthy (extractHtmlBody g.payload) with
  | none =>
    simp only [hs]
    unfold finishMessage
    unfold bodyKeyFor
    simp only [hs]
    rfl
  | some b =>
    simp only [hs]
    rw [hb]
    simp only [Bool.false_eq_true, if_false]
    unfold finishMessage
    unfold bodyKeyFor
    simp only [hs]
    rfl

theorem syncOneAttachment_no_row (u : Nat) (mid : String) (newId : Nat)
    (part : Payload) (env : SyncEnv) (st : DBState) (aid : String)
    (hfail : env.attachmentFetchFail mid aid = true
      ∨ env.attachmentUploadFail u mid aid = true)
    (hpre : ∀ a ∈ st.attachments,
      ¬(a.messageId = newId ∧ a.gmailAttachmentId = aid)) :
    ∀ a ∈ (syncOneAttachment u mid newId part env st).1.attachments,
      ¬(a.messageId = newId ∧ a.gmailAttachmentId = aid) := by
  unfold syncOneAttachment
  cases hb : bodyAttachmentIdTruthy part.body with
  | none => simpa [hb] using hpre
  | some aid' =>
    simp only [hb]
    split_ifs with h1 h2 h3
    · exact hpre
    · exact hpre
    · exact hpre
    · intro a ha
      simp only at ha
      rcases List.mem_append.mp ha with h4 | h4
      · exact hpre a h4
      · rw [List.mem_singleton] at h4
        subst h4
        rintro ⟨_, hg⟩
        simp only at hg
        subst hg
        rcases hfail with hf | hf
        · exact h1 hf
        · exact h2 hf

theorem attachmentLoop_no_row (u : Nat) (mid : String) (newId : Nat)
    (parts : List Payload) (env : SyncEnv) (st : DBState) (aid : String)
    (hfail : env.attachmentFetchFail mid aid = true
      ∨ env.attachmentUploadFail u mid aid = true)
    (hpre : ∀ a ∈ st.attachments,
      ¬(a.messageId = newId ∧ a.gmailAttachmentId = aid)) :
    ∀ a ∈ (attachmentLoop u mid newId parts env st).1.attachments,
      ¬(a.messageId = newId ∧ a.gmailAttachmentId = aid) := by
  induction parts generalizing st with
  | nil => exact hpre
  | cons part rest ih =>
    rw [attachmentLoop]
    exact ih _ (syncOneAttachment_no_row u mid newId part env st aid hfail hpre)

theorem syncOneAttachment_skip (u : Nat) (mid : String) (newId : Nat)
    (part : Payload) (env : SyncEnv) (st : DBState)
    (hok : attachmentOk u mid env part = false) :
    syncOneAttachment u mid newId part env st = (st, 0) := by
  unfold syncOneAttachment
  unfold attachmentOk at hok
  cases hb : bodyAttachmentIdTruthy part.body with
  | none => simp [hb]
  | some aid =>
    simp only [hb] at hok ⊢
    simp only [Bool.and_eq_false_iff, Bool.not_eq_false'] at hok
    rcases hok with hf | hf
    · rw [hf]
      simp
    · rw [hf]
      simp

theorem attachmentLoop_all_fail (u : Nat) (mid : String) (newId : Nat)
    (parts : List Payload) (env : SyncEnv) (st : DBState)
    (hall : ∀ p ∈ parts, attachmentOk u mid env p = false) :
    attachmentLoop u mid newId parts env st = (st, 0) := by
  induction parts generalizing st with
  | nil => rfl
  | cons part rest ih =>
    rw [attachmentLoop,
      syncOneAttachment_skip u mid newId part env st (hall part (List.mem_cons_self _ _)),
      ih st (fun p hp => hall p (List.mem_cons_of_mem _ hp))]
    rfl

/-- C5: a failing attachment fetch or upload is caught at the
per-attachment boundary. The message-sync step still succeeds with
`messagesSynced = 1`, the Message row is inserted with all its fields
(`newMessageRow`), no Attachment row referencing the failing remote
attachment id is created, a message whose attachments all fail gets
`attachmentsSynced = 0`, and the cycle's overall status is still
success. -/
theorem attachment_failure_isolated (userId threadId : Nat) (g : GmailMsg)
    (env : SyncEnv) (st : DBState) (aid : String)
    (hne : msgExists st threadId g.id = false)
    (hb : env.bodyUploadFail userId g.id = false)
    (hfail : env.attachmentFetchFail g.id aid = true
      ∨ env.attachmentUploadFail userId g.id aid = true)
    (hpre : ∀ a ∈ st.attachments,
      ¬(a.messageId = st.nextMessageId ∧ a.gmailAttachmentId = aid)) :
    ∃ st' k, syncMessage userId threadId g env st = (st', .ok (1, k))
      ∧ newMessageRow threadId g (bodyKeyFor userId g) st ∈ st'.messages
      ∧ (∀ a ∈ st'.attachments,
          ¬(a.messageId = st.nextMessageId ∧ a.gmailAttachmentId = aid))
      ∧ ((∀ p ∈ extractAttachments g.payload,
          attachmentOk userId g.id env p = false) → k = 0)
      ∧ (st.users.any (fun x => x.id == userId) = true →
          env.labelsFail = false → env.threadsFail = false →
          (syncUser userId 0 0 env st).2.success = true) := by
  rw [syncMessage_creates userId threadId g env st hne hb]
  refine ⟨_, _, rfl, ?_, ?_, ?_, ?_⟩
  · rw [((attachmentLoop_attFrame userId g.id st.nextMessageId
      (extractAttachments g.payload) env _)).2.2.2.2.1]
    simp
  · exact attachmentLoop_no_row userId g.id st.nextMessageId _ env _ aid hfail
      (by simpa using hpre)
  · intro hall
    rw [attachmentLoop_all_fail userId g.id st.nextMessageId _ env _ hall]
  · intro hu hl ht
    rw [syncUser_success userId 0 0 env st hu hl ht]

theorem attachment_failure_isolated_witness :
    ∃ st' k, syncMessage 1 1 c5Msg c5Env wEmptyStore = (st', .ok (1, k))
      ∧ newMessageRow 1 c5Msg (bodyKeyFor 1 c5Msg) wEmptyStore ∈ st'.messages
      ∧ (∀ a ∈ st'.attachments,
          ¬(a.messageId = wEmptyStore.nextMessageId ∧ a.gmailAttachmentId = "a1"))
      ∧ ((∀ p ∈ extractAttachments c5Msg.payload,
          attachmentOk 1 c5Msg.id c5Env p = false) → k = 0)
      ∧ (wEmptyStore.users.any (fun x => x.id == 1) = true →
          c5Env.labelsFail = false → c5Env.threadsFail = false →
          (syncUser 1 0 0 c5Env wEmptyStore).2.success = true) :=
  attachment_failure_isolated 1 1 c5Msg c5Env wEmptyStore "a1"
    (by decide) rfl (Or.inl (by decide)) (by decide)

/-! ## Claim C1: prune correctness -/

theorem getLast?_cons_some (m : GmailMsg) (ms : List GmailMsg) :
    ∃ lm, (m :: ms).getLast? = some lm :=
  ⟨(m :: ms).getLast (by simp), List.getLast?_eq_getLast _ (by simp)⟩

theorem filter_key_nil_no_match (u : Nat) (gid : String) (l : List ThreadRow)
    (hfil : l.filter (fun t => t.userId == u && t.gmailThreadId == gid) = []) :
    ∀ t ∈ l, ¬(t.userId = u ∧ t.gmailThreadId = gid) := by
  intro t ht hc
  have := List.filter_eq_nil_iff.mp hfil t ht
  simp [hc.1, hc.2] at this

theorem syncThread_new_nextThreadId (u : Nat) (gt : GmailThread) (T0 : Nat)
    (env : SyncEnv) (st : DBState) (lm : GmailMsg)
    (hfil : st.threads.filter (fun t =>
      t.userId == u && t.gmailThreadId == gt.id) = [])
    (hlast : gt.messages.getLast? = some lm) :
    (syncThread u gt T0 env st).1.nextThreadId = st.nextThreadId + 1 := by
  unfold syncThread
  simp only [hfil, hlast]
  rw [(msgLoop_msgFrame u _ gt.messages env _).2.2.2.2.2.2.1, syncThreadLabels_spec]

theorem syncThread_existing_nextThreadId (u : Nat) (gt : GmailThread) (T0 : Nat)
    (env : SyncEnv) (st : DBState) (t0 : ThreadRow) (rest : List ThreadRow)
    (hfil : st.threads.filter (fun t =>
      t.userId == u && t.gmailThreadId == gt.id) = t0 :: rest) :
    (syncThread u gt T0 env st).1.nextThreadId = st.nextThreadId := by
  unfold syncThread
  simp only [hfil]
  rw [(msgLoop_msgFrame u _ gt.messages env _).2.2.2.2.2.2.1]

theorem ThreadsWF_syncThread (u : Nat) (gt : GmailThread) (T0 : Nat)
    (env : SyncEnv) (st : DBState) (h : ThreadsWF st) :
    ThreadsWF (syncThread u gt T0 env st).1 := by
  obtain ⟨hids, hkey, hlt⟩ := h
  rcases hfil : st.threads.filter (fun t =>
      t.userId == u && t.gmailThreadId == gt.id) with _ | ⟨t0, rest⟩
  · cases hmsgs : gt.messages with
    | nil =>
      rw [syncThread_emptyNew u gt T0 env st hfil hmsgs]
      exact ⟨hids, hkey, hlt⟩
    | cons m ms =>
      obtain ⟨lm, hlast⟩ := by rw [hmsgs] at *; exact getLast?_cons_some m ms
      have hlast' : gt.messages.getLast? = some lm := by rw [hmsgs]; exact hlast
      refine ⟨?_, ?_, ?_⟩
      · rw [syncThread_new_threads u gt T0 env st lm hfil hlast', List.map_append]
        rw [List.nodup_append]
        refine ⟨hids, by simp, ?_⟩
        intro x hx hx'
        simp [newThreadRow] at hx'
        obtain ⟨t, ht, hid⟩ := List.mem_map.mp hx
        rw [hx'] at hid
        exact absurd (hid ▸ hlt t ht) (lt_irrefl _)
      · rw [syncThread_new_threads u gt T0 env st lm hfil hlast']
        rw [List.pairwise_append]
        refine ⟨hkey, by simp, ?_⟩
        intro a ha b hb
        rw [List.mem_singleton] at hb
        subst hb
        intro hc
        exact filter_key_nil_no_match u gt.id st.threads hfil a ha
          ⟨by simpa [newThreadRow] using hc.1, by simpa [newThreadRow] using hc.2⟩
      · rw [syncThread_new_threads u gt T0 env st lm hfil hlast',
          syncThread_new_nextThreadId u gt T0 env st lm hfil hlast']
        intro t ht
        rcases List.mem_append.mp ht with h1 | h1
        · exact Nat.lt_succ_of_lt (hlt t h1)
        · rw [List.mem_singleton] at h1
          subst h1
          simp [newThreadRow]
  · obtain ⟨hth, _, _, _⟩ := syncThread_existing u gt T0 env st t0 rest hfil
    have hpres : ∀ r : ThreadRow,
        ((if r.id == t0.id then { r with lastSeenAt := T0 } else r) : ThreadRow).id = r.id
        ∧ ((if r.id == t0.id then { r with lastSeenAt := T0 } else r) : ThreadRow).userId = r.userId
        ∧ ((if r.id == t0.id then { r with lastSeenAt := T0 } else r) : ThreadRow).gmailThreadId
            = r.gmailThreadId := by
      intro r
      by_cases hid : (r.id == t0.id) = true
      · simp [hid]
      · simp [hid]
    refine ⟨?_, ?_, ?_⟩
    · rw [hth, List.map_map]
      have : st.threads.map ((fun t => t.id) ∘ (fun r =>
          if r.id == t0.id then { r with lastSeenAt := T0 } else r))
          = st.threads.map (fun t => t.id) :=
        List.map_congr_left (fun r _ => (hpres r).1)
      rw [this]
      exact hids
    · rw [hth, List.pairwise_map]
      refine hkey.imp ?_
      intro a b hab hc
      exact hab ⟨((hpres a).2.1).symm.trans (hc.1.trans (hpres b).2.1),
        ((hpres a).2.2).symm.trans (hc.2.trans (hpres b).2.2)⟩
    · rw [hth, syncThread_existing_nextThreadId u gt T0 env st t0 rest hfil]
      intro t ht
      obtain ⟨r, hr, hrt⟩ := List.mem_map.mp ht
      rw [← hrt, (hpres r).1]
      exact hlt r hr

theorem ThreadsWF_threadsPhase (u T0 : Nat) (gts : List GmailThread)
    (env : SyncEnv) (st : DBState) (h : ThreadsWF st) :
    ThreadsWF (threadsPhase u T0 gts env st).1 := by
  induction gts generalizing st with
  | nil => exact h
  | cons gt rest ih =>
    rw [threadsPhase]
    rcases hs : syncThread u gt T0 env st with ⟨s', r⟩
    have hs' : ThreadsWF s' := by
      have h2 := ThreadsWF_syncThread u gt T0 env st h
      rw [hs] at h2
      exact h2
    simp only [hs]
    cases r with
    | ok c => exact ih s' hs'
    | error e => exact ih s' hs'

theorem syncThread_seen_establish (u : Nat) (gt : GmailThread) (T0 : Nat)
    (env : SyncEnv) (st : DBState) (h : ThreadsWF st) :
    ∀ t ∈ (syncThread u gt T0 env st).1.threads,
      t.userId = u → t.gmailThreadId = gt.id → t.lastSeenAt = T0 := by
  obtain ⟨hids, hkey, hlt⟩ := h
  rcases hfil : st.threads.filter (fun t =>
      t.userId == u && t.gmailThreadId == gt.id) with _ | ⟨t0, rest⟩
  · cases hmsgs : gt.messages with
    | nil =>
      rw [syncThread_emptyNew u gt T0 env st hfil hmsgs]
      intro t ht hu hg
      exact absurd ⟨hu, hg⟩ (filter_key_nil_no_match u gt.id st.threads hfil t ht)
    | cons m ms =>
      obtain ⟨lm, hlast⟩ := by rw [hmsgs] at *; exact getLast?_cons_some m ms
      have hlast' : gt.messages.getLast? = some lm := by rw [hmsgs]; exact hlast
      rw [syncThread_new_threads u gt T0 env st lm hfil hlast']
      intro t ht hu hg
      rcases List.mem_append.mp ht with h1 | h1
      · exact absurd ⟨hu, hg⟩ (filter_key_nil_no_match u gt.id st.threads hfil t h1)
      · rw [List.mem_singleton] at h1
        subst h1
        rfl
  · have hrest : rest = [] := by
      cases hr : rest with
      | nil => rfl
      | cons b bs =>
        exfalso
        have hsub : (t0 :: rest).Pairwise (fun a b =>
            ¬(a.userId = b.userId ∧ a.gmailThreadId = b.gmailThreadId)) := by
          rw [← hfil]
          exact hkey.sublist (List.filter_sublist _)
        rw [hr, List.pairwise_cons] at hsub
        have hbmem : b ∈ st.threads.filter (fun t =>
            t.userId == u && t.gmailThreadId == gt.id) := by
          rw [hfil, hr]
          exact List.mem_cons_of_mem _ (List.mem_cons_self _ _)
        have ht0mem : t0 ∈ st.threads.filter (fun t =>
            t.userId == u && t.gmailThreadId == gt.id) := by
          rw [hfil]
          exact List.mem_cons_self _ _
        have hb := (List.mem_filter.mp hbmem).2
        have ht0 := (List.mem_filter.mp ht0mem).2
        simp only [Bool.and_eq_true, beq_iff_eq] at hb ht0
        exact hsub.1 b (List.mem_cons_self _ _)
          ⟨ht0.1.trans hb.1.symm, ht0.2.trans hb.2.symm⟩
    subst hrest
    obtain ⟨hth, _, _, _⟩ := syncThread_existing u gt T0 env st t0 [] hfil
    rw [hth]
    intro t ht hu hg
    obtain ⟨r, hr, hrt⟩ := List.mem_map.mp ht
    by_cases hid : (r.id == t0.id) = true
    · rw [if_pos hid] at hrt
      rw [← hrt]
    · rw [if_neg hid] at hrt
      subst hrt
      have : r ∈ st.threads.filter (fun t =>
          t.userId == u && t.gmailThreadId == gt.id) := by
        rw [List.mem_filter]
        exact ⟨hr, by simp [hu, hg]⟩
      rw [hfil, List.mem_singleton] at this
      subst this
      simp at hid

theorem syncThread_seen_stable (u : Nat) (gt : GmailThread) (T0 : Nat)
    (env : SyncEnv) (st : DBState) (gid : String)
    (hpre : ∀ t ∈ st.threads,
      t.userId = u → t.gmailThreadId = gid → t.lastSeenAt = T0) :
    ∀ t ∈ (syncThread u gt T0 env st).1.threads,
      t.userId = u → t.gmailThreadId = gid → t.lastSeenAt = T0 := by
  rcases hfil : st.threads.filter (fun t =>
      t.userId == u && t.gmailThreadId == gt.id) with _ | ⟨t0, rest⟩
  · cases hmsgs : gt.messages with
    | nil =>
      rw [syncThread_emptyNew u gt T0 env st hfil hmsgs]
      exact hpre
    | cons m ms =>
      obtain ⟨lm, hlast⟩ := by rw [hmsgs] at *; exact getLast?_cons_some m ms
      have hlast' : gt.messages.getLast? = some lm := by rw [hmsgs]; exact hlast
      rw [syncThread_new_threads u gt T0 env st lm hfil hlast']
      intro t ht hu hg
      rcases List.mem_append.mp ht with h1 | h1
      · exact hpre t h1 hu hg
      · rw [List.mem_singleton] at h1
        subst h1
        rfl
  · obtain ⟨hth, _, _, _⟩ := syncThread_existing u gt T0 env st t0 rest hfil
    rw [hth]
    intro t ht hu hg
    obtain ⟨r, hr, hrt⟩ := List.mem_map.mp ht
    by_cases hid : (r.id == t0.id) = true
    · rw [if_pos hid] at hrt
      rw [← hrt]
    · rw [if_neg hid] at hrt
      subst hrt
      exact hpre r hr hu hg

theorem threadsPhase_seen_stable (u T0 : Nat) (gts : List GmailThread)
    (env : SyncEnv) (st : DBState) (gid : String)
    (hpre : ∀ t ∈ st.threads,
      t.userId = u → t.gmailThreadId = gid → t.lastSeenAt = T0) :
    ∀ t ∈ (threadsPhase u T0 gts env st).1.threads,
      t.userId = u → t.gmailThreadId = gid → t.lastSeenAt = T0 := by
  induction gts generalizing st with
  | nil => exact hpre
  | cons gt rest ih =>
    rw [threadsPhase]
    rcases hs : syncThread u gt T0 env st with ⟨s', r⟩
    have hs' := syncThread_seen_stable u gt T0 env st gid hpre
    rw [hs] at hs'
    simp only [hs]
    cases r with
    | ok c => exact ih s' hs'
    | error e => exact ih s' hs'

theorem threadsPhase_lastSeen (u T0 : Nat) (gts : List GmailThread)
    (env : SyncEnv) (st : DBState) (h : ThreadsWF st) :
    ∀ t ∈ (threadsPhase u T0 gts env st).1.threads, t.userId = u →
      t.gmailThreadId ∈ gts.map GmailThread.id → t.lastSeenAt = T0 := by
  induction gts generalizing st with
  | nil => intro t _ _ hmem; simp at hmem
  | cons gt rest ih =>
    rw [threadsPhase]
    rcases hs : syncThread u gt T0 env st with ⟨s', r⟩
    have hwf' : ThreadsWF s' := by
      have h2 := ThreadsWF_syncThread u gt T0 env st h
      rw [hs] at h2
      exact h2
    have hseen : ∀ t ∈ s'.threads,
        t.userId = u → t.gmailThreadId = gt.id → t.lastSeenAt = T0 := by
      have h2 := syncThread_seen_establish u gt T0 env st h
      rw [hs] at h2
      exact h2
    have hstable := threadsPhase_seen_stable u T0 rest env s' gt.id hseen
    simp only [hs]
    have main : ∀ t ∈ (threadsPhase u T0 rest env s').1.threads, t.userId = u →
        t.gmailThreadId ∈ (gt :: rest).map GmailThread.id → t.lastSeenAt = T0 := by
      intro t ht hu hmem
      rw [List.map_cons, List.mem_cons] at hmem
      rcases hmem with hmem | hmem
      · exact hstable t ht hu hmem
      · exact ih s' hwf' t ht hu hmem
    cases r with
    | ok c => exact main
    | error e => exact main

theorem cleanup_spec (u T0 : Nat) (st : DBState) :
    (cleanupDeletedThreads u T0 st).1.threads
        = st.threads.filter (fun t => !((prunedThreadIds u T0 st).contains t.id))
      ∧ (cleanupDeletedThreads u T0 st).1.messages
        = st.messages.filter (fun m => !((prunedThreadIds u T0 st).contains m.threadId))
      ∧ (cleanupDeletedThreads u T0 st).1.attachments
        = st.attachments.filter (fun a => !((prunedMessageIds u T0 st).contains a.messageId))
      ∧ (cleanupDeletedThreads u T0 st).1.threadLabels
        = st.threadLabels.filter (fun tl => !((prunedThreadIds u T0 st).contains tl.threadId)) := by
  unfold cleanupDeletedThreads
  dsimp only
  split
  · exact ⟨rfl, rfl, rfl, rfl⟩
  · rename_i hlen
    have hnil : prunedThreadIds u T0 st = [] := by
      rw [Nat.not_lt, Nat.le_zero, List.length_eq_zero] at hlen
      exact hlen
    refine ⟨?_, ?_, ?_, ?_⟩ <;> simp [hnil, prunedMessageIds]

theorem cleanup_threads_exact (u T0 : Nat) (st : DBState)
    (hids : (st.threads.map (fun t => t.id)).Nodup) :
    (cleanupDeletedThreads u T0 st).1.threads
      = st.threads.filter (fun t => !(t.userId == u && t.lastSeenAt < T0)) := by
  rw [(cleanup_spec u T0 st).1]
  apply List.filter_congr
  intro t ht
  congr 1
  by_cases hmatch : (t.userId == u && decide (t.lastSeenAt < T0)) = true
  · rw [hmatch]
    rw [List.elem_iff]
    unfold prunedThreadIds
    exact List.mem_map_of_mem _ (List.mem_filter.mpr ⟨ht, hmatch⟩)
  · rw [Bool.not_eq_true] at hmatch
    rw [hmatch]
    rw [Bool.eq_false_iff]
    intro hc
    rw [List.elem_iff] at hc
    unfold prunedThreadIds at hc
    obtain ⟨t', ht', hid⟩ := List.mem_map.mp hc
    have htt : t' = t := List.inj_on_of_nodup_map hids
      (List.mem_filter.mp ht').1 ht hid
    have := (List.mem_filter.mp ht').2
    rw [htt, hmatch] at this
    cases this

/-- C1: after the per-conversation phase of a full cycle over a
well-formed store, (i) every thread row of this user whose remote id is in
the fetched remote list carries `lastSeenAt = T0`; the prune step then
deletes (ii) exactly the rows of this user with `lastSeenAt < T0`,
(iii) cascading to exactly their messages and those messages'
attachments; consequently (iv) every observed conversation survives the
prune. -/
theorem prune_correctness (userId T0 : Nat) (env : SyncEnv)
    (st1 mid pruned : DBState) (hwf : ThreadsWF st1)
    (hmid : mid = (threadsPhase userId T0 (env.threads.take 1000) env st1).1)
    (hpruned : pruned = (cleanupDeletedThreads userId T0 mid).1) :
    (∀ t ∈ mid.threads, t.userId = userId →
      t.gmailThreadId ∈ (env.threads.take 1000).map GmailThread.id →
      t.lastSeenAt = T0)
    ∧ pruned.threads
        = mid.threads.filter (fun t => !(t.userId == userId && t.lastSeenAt < T0))
    ∧ pruned.messages
        = mid.messages.filter (fun m =>
            !((prunedThreadIds userId T0 mid).contains m.threadId))
    ∧ pruned.attachments
        = mid.attachments.filter (fun a =>
            !((prunedMessageIds userId T0 mid).contains a.messageId))
    ∧ (∀ t ∈ mid.threads, t.userId = userId →
        t.gmailThreadId ∈ (env.threads.take 1000).map GmailThread.id →
        t ∈ pruned.threads) := by
  have hwfmid : ThreadsWF mid := by
    rw [hmid]
    exact ThreadsWF_threadsPhase userId T0 _ env st1 hwf
  have hseen : ∀ t ∈ mid.threads, t.userId = userId →
      t.gmailThreadId ∈ (env.threads.take 1000).map GmailThread.id →
      t.lastSeenAt = T0 := by
    rw [hmid]
    exact threadsPhase_lastSeen userId T0 _ env st1 hwf
  have hthr : pruned.threads
      = mid.threads.filter (fun t => !(t.userId == userId && t.lastSeenAt < T0)) := by
    rw [hpruned]
    exact cleanup_threads_exact userId T0 mid hwfmid.1
  refine ⟨hseen, hthr, ?_, ?_, ?_⟩
  · rw [hpruned]
    exact (cleanup_spec userId T0 mid).2.1
  · rw [hpruned]
    exact (cleanup_spec userId T0 mid).2.2.1
  · intro t ht hu hmem
    rw [hthr, List.mem_filter]
    refine ⟨ht, ?_⟩
    have hT0 := hseen t ht hu hmem
    simp [hT0]

theorem prune_correctness_witness :
    ThreadsWF wStore1
    ∧ (cleanupDeletedThreads 1 100
        (threadsPhase 1 100 (wEnvNoFail.threads.take 1000) wEnvNoFail wStore1).1).1.threads
      = (threadsPhase 1 100 (wEnvNoFail.threads.take 1000) wEnvNoFail
          wStore1).1.threads.filter
          (fun t => !(t.userId == 1 && t.lastSeenAt < 100)) :=
  ⟨⟨by decide, by decide, by decide⟩,
   (prune_correctness 1 100 wEnvNoFail wStore1 _ _
     ⟨by decide, by decide, by decide⟩ rfl rfl).2.1⟩

/-! ## Claim C2: idempotence. Part 1 — store well-formedness is preserved -/

theorem syncOneAttachment_shape (u : Nat) (mid : String) (newId : Nat)
    (part : Payload) (env : SyncEnv) (st : DBState) :
    (syncOneAttachment u mid newId part env st).1.attachments = st.attachments
    ∨ ∃ aid row, bodyAttachmentIdTruthy part.body = some aid
        ∧ (st.attachments.any (fun a =>
            a.messageId == newId && a.gmailAttachmentId == aid)) = false
        ∧ row.messageId = newId ∧ row.gmailAttachmentId = aid
        ∧ (syncOneAttachment u mid newId part env st).1.attachments
            = st.attachments ++ [row] := by
  unfold syncOneAttachment
  cases hb : bodyAttachmentIdTruthy part.body with
  | none => left; simp [hb]
  | some aid =>
    simp only [hb]
    split_ifs with h1 h2 h3
    · left; rfl
    · left; rfl
    · left; rfl
    · right
      refine ⟨aid, _, rfl, by simpa using h3, rfl, rfl, rfl⟩

theorem attWF_syncOneAttachment (u : Nat) (mid : String) (newId : Nat)
    (part : Payload) (env : SyncEnv) (st : DBState)
    (hkey : st.attachments.Pairwise (fun a b =>
      ¬(a.messageId = b.messageId ∧ a.gmailAttachmentId = b.gmailAttachmentId)))
    (hlt : ∀ a ∈ st.attachments, a.messageId < st.nextMessageId)
    (hnid : newId < st.nextMessageId) :
    (syncOneAttachment u mid newId part env st).1.attachments.Pairwise (fun a b =>
      ¬(a.messageId = b.messageId ∧ a.gmailAttachmentId = b.gmailAttachmentId))
    ∧ ∀ a ∈ (syncOneAttachment u mid newId part env st).1.attachments,
        a.messageId < st.nextMessageId := by
  rcases syncOneAttachment_shape u mid newId part env st with hsh |
    ⟨aid, row, hb, hany, hrm, hra, hsh⟩
  · rw [hsh]; exact ⟨hkey, hlt⟩
  · rw [hsh]
    constructor
    · rw [List.pairwise_append]
      refine ⟨hkey, by simp, ?_⟩
      intro a ha b hb'
      rw [List.mem_singleton] at hb'
      subst hb'
      rintro ⟨hm, hg⟩
      rw [List.any_eq_false] at hany
      have := hany a ha
      simp [hm, hrm, hg, hra] at this
    · intro a ha
      rcases List.mem_append.mp ha with h1 | h1
      · exact hlt a h1
      · rw [List.mem_singleton] at h1
        subst h1
        rw [hrm]
        exact hnid

theorem attWF_attachmentLoop (u : Nat) (mid : String) (newId : Nat)
    (parts : List Payload) (env : SyncEnv) (st : DBState)
    (hkey : st.attachments.Pairwise (fun a b =>
      ¬(a.messageId = b.messageId ∧ a.gmailAttachmentId = b.gmailAttachmentId)))
    (hlt : ∀ a ∈ st.attachments, a.messageId < st.nextMessageId)
    (hnid : newId < st.nextMessageId) :
    (attachmentLoop u mid newId parts env st).1.attachments.Pairwise (fun a b =>
      ¬(a.messageId = b.messageId ∧ a.gmailAttachmentId = b.gmailAttachmentId))
    ∧ ∀ a ∈ (attachmentLoop u mid newId parts env st).1.attachments,
        a.messageId < st.nextMessageId := by
  induction parts generalizing st with
  | nil => exact ⟨hkey, hlt⟩
  | cons part rest ih =>
    rw [attachmentLoop]
    have h1 := attWF_syncOneAttachment u mid newId part env st hkey hlt hnid
    have hmid : (syncOneAttachment u mid newId part env st).1.nextMessageId
        = st.nextMessageId :=
      (syncOneAttachment_attFrame u mid newId part env st).2.2.2.2.2.2.2.2.1
    have := ih (syncOneAttachment u mid newId part env st).1
      h1.1 (by rw [hmid]; exact h1.2) (by rw [hmid]; exact hnid)
    rw [hmid] at this
    exact this

theorem WF_syncMessage (u tid : Nat) (g : GmailMsg) (env : SyncEnv)
    (st : DBState)
    (hmkey : st.messages.Pairwise (fun a b =>
      ¬(a.threadId = b.threadId ∧ a.gmailMessageId = b.gmailMessageId)))
    (hmlt : ∀ m ∈ st.messages, m.id < st.nextMessageId)
    (hakey : st.attachments.Pairwise (fun a b =>
      ¬(a.messageId = b.messageId ∧ a.gmailAttachmentId = b.gmailAttachmentId)))
    (halt : ∀ a ∈ st.attachments, a.messageId < st.nextMessageId) :
    (syncMessage u tid g env st).1.messages.Pairwise (fun a b =>
      ¬(a.threadId = b.threadId ∧ a.gmailMessageId = b.gmailMessageId))
    ∧ (∀ m ∈ (syncMessage u tid g env st).1.messages,
        m.id < (syncMessage u tid g env st).1.nextMessageId)
    ∧ (syncMessage u tid g env st).1.attachments.Pairwise (fun a b =>
      ¬(a.messageId = b.messageId ∧ a.gmailAttachmentId = b.gmailAttachmentId))
    ∧ (∀ a ∈ (syncMessage u tid g env st).1.attachments,
        a.messageId < (syncMessage u tid g env st).1.nextMessageId) := by
  unfold syncMessage
  cases hex : msgExists st tid g.id with
  | true =>
    simp only [reduceIte]
    exact ⟨hmkey, hmlt, hakey, halt⟩
  | false =>
    simp only [Bool.false_eq_true, if_false]
    have main : ∀ key, (finishMessage u tid g key env st).1.messages.Pairwise
        (fun a b => ¬(a.threadId = b.threadId ∧ a.gmailMessageId = b.gmailMessageId))
      ∧ (∀ m ∈ (finishMessage u tid g key env st).1.messages,
          m.id < (finishMessage u tid g key env st).1.nextMessageId)
      ∧ (finishMessage u tid g key env st).1.attachments.Pairwise
        (fun a b => ¬(a.messageId = b.messageId ∧ a.gmailAttachmentId = b.gmailAttachmentId))
      ∧ (∀ a ∈ (finishMessage u tid g key env st).1.attachments,
          a.messageId < (finishMessage u tid g key env st).1.nextMessageId) := by
      intro key
      unfold finishMessage
      dsimp only
      have haf := attachmentLoop_attFrame u g.id (newMessageRow tid g key st).id
        (extractAttachments g.payload) env
        { st with
          messages := st.messages ++ [newMessageRow tid g key st],
          nextMessageId := st.nextMessageId + 1 }
      have hmsgs := haf.2.2.2.2.1
      have hnmi := haf.2.2.2.2.2.2.2.2.1
      refine ⟨?_, ?_, ?_, ?_⟩
      · rw [hmsgs]
        dsimp only
        rw [List.pairwise_append]
        refine ⟨hmkey, by simp, ?_⟩
        intro a ha b hb
        rw [List.mem_singleton] at hb
        subst hb
        rintro ⟨hm, hg⟩
        unfold msgExists at hex
        rw [List.any_eq_false] at hex
        have := hex a ha
        simp [hm, hg, newMessageRow] at this
      · rw [hmsgs, hnmi]
        dsimp only
        intro m hm
        rcases List.mem_append.mp hm with h1 | h1
        · exact Nat.lt_succ_of_lt (hmlt m h1)
        · rw [List.mem_singleton] at h1
          subst h1
          simp [newMessageRow]
      · exact (attWF_attachmentLoop u g.id (newMessageRow tid g key st).id
          (extractAttachments g.payload) env
          { st with
            messages := st.messages ++ [newMessageRow tid g key st],
            nextMessageId := st.nextMessageId + 1 }
          hakey (fun a ha => Nat.lt_succ_of_lt (halt a ha))
          (by simp [newMessageRow])).1
      · rw [hnmi]
        dsimp only
        exact (attWF_attachmentLoop u g.id (newMessageRow tid g key st).id
          (extractAttachments g.payload) env
          { st with
            messages := st.messages ++ [newMessageRow tid g key st],
            nextMessageId := st.nextMessageId + 1 }
          hakey (fun a ha => Nat.lt_succ_of_lt (halt a ha))
          (by simp [newMessageRow])).2
    cases hs : strTruthy (extractHtmlBody g.payload) with
    | none =>
      simp only [hs]
      exact main none
    | some b =>
      simp only [hs]
      split
      · exact ⟨hmkey, hmlt, hakey, halt⟩
      · exact main (some (generateEmailBodyKey u g.id))

theorem msgsWF_msgLoop (u tid : Nat) (msgs : List GmailMsg) (env : SyncEnv)
    (st : DBState)
    (hmkey : st.messages.Pairwise (fun a b =>
      ¬(a.threadId = b.threadId ∧ a.gmailMessageId = b.gmailMessageId)))
    (hmlt : ∀ m ∈ st.messages, m.id < st.nextMessageId)
    (hakey : st.attachments.Pairwise (fun a b =>
      ¬(a.messageId = b.messageId ∧ a.gmailAttachmentId = b.gmailAttachmentId)))
    (halt : ∀ a ∈ st.attachments, a.messageId < st.nextMessageId) :
    (msgLoop u tid msgs env st).1.messages.Pairwise (fun a b =>
      ¬(a.threadId = b.threadId ∧ a.gmailMessageId = b.gmailMessageId))
    ∧ (∀ m ∈ (msgLoop u tid msgs env st).1.messages,
        m.id < (msgLoop u tid msgs env st).1.nextMessageId)
    ∧ (msgLoop u tid msgs env st).1.attachments.Pairwise (fun a b =>
      ¬(a.messageId = b.messageId ∧ a.gmailAttachmentId = b.gmailAttachmentId))
    ∧ (∀ a ∈ (msgLoop u tid msgs env st).1.attachments,
        a.messageId < (msgLoop u tid msgs env st).1.nextMessageId) := by
  induction msgs generalizing st with
  | nil => exact ⟨hmkey, hmlt, hakey, halt⟩
  | cons g rest ih =>
    rw [msgLoop]
    have h := WF_syncMessage u tid g env st hmkey hmlt hakey halt
    rcases hm : syncMessage u tid g env st with ⟨s', r⟩
    rw [hm] at h
    cases r with
    | ok c =>
      simp only [hm]
      exact ih s' h.1 h.2.1 h.2.2.1 h.2.2.2
    | error e =>
      simp only [hm]
      exact ih s' h.1 h.2.1 h.2.2.1 h.2.2.2

theorem msgsWF_syncThread (u : Nat) (gt : GmailThread) (T0 : Nat)
    (env : SyncEnv) (st : DBState)
    (hmkey : st.messages.Pairwise (fun a b =>
      ¬(a.threadId = b.threadId ∧ a.gmailMessageId = b.gmailMessageId)))
    (hmlt : ∀ m ∈ st.messages, m.id < st.nextMessageId)
    (hakey : st.attachments.Pairwise (fun a b =>
      ¬(a.messageId = b.messageId ∧ a.gmailAttachmentId = b.gmailAttachmentId)))
    (halt : ∀ a ∈ st.attachments, a.messageId < st.nextMessageId) :
    (syncThread u gt T0 env st).1.messages.Pairwise (fun a b =>
      ¬(a.threadId = b.threadId ∧ a.gmailMessageId = b.gmailMessageId))
    ∧ (∀ m ∈ (syncThread u gt T0 env st).1.messages,
        m.id < (syncThread u gt T0 env st).1.nextMessageId)
    ∧ (syncThread u gt T0 env st).1.attachments.Pairwise (fun a b =>
      ¬(a.messageId = b.messageId ∧ a.gmailAttachmentId = b.gmailAttachmentId))
    ∧ (∀ a ∈ (syncThread u gt T0 env st).1.attachments,
        a.messageId < (syncThread u gt T0 env st).1.nextMessageId) := by
  unfold syncThread
  split
  · split
    · exact ⟨hmkey, hmlt, hakey, halt⟩
    · dsimp only
      rw [syncThreadLabels_spec]
      refine msgsWF_msgLoop u _ gt.messages env _ ?_ ?_ ?_ ?_
      · exact hmkey
      · exact hmlt
      · exact hakey
      · exact halt
  · dsimp only
    refine msgsWF_msgLoop u _ gt.messages env _ ?_ ?_ ?_ ?_
    · exact hmkey
    · exact hmlt
    · exact hakey
    · exact halt

theorem WF_syncThread (u : Nat) (gt : GmailThread) (T0 : Nat) (env : SyncEnv)
    (st : DBState) (h : WF st) : WF (syncThread u gt T0 env st).1 := by
  obtain ⟨hth, hmkey, hmlt, hakey, halt, hlbl⟩ := h
  have hm := msgsWF_syncThread u gt T0 env st hmkey hmlt hakey halt
  have hlb : (syncThread u gt T0 env st).1.labels = st.labels :=
    (syncThread_thFrame u gt T0 env st).2.1
  exact ⟨ThreadsWF_syncThread u gt T0 env st hth, hm.1, hm.2.1, hm.2.2.1,
    hm.2.2.2, by rw [hlb]; exact hlbl⟩

theorem WF_threadsPhase (u T0 : Nat) (gts : List GmailThread) (env : SyncEnv)
    (st : DBState) (h : WF st) : WF (threadsPhase u T0 gts env st).1 := by
  induction gts generalizing st with
  | nil => exact h
  | cons gt rest ih =>
    rw [threadsPhase]
    rcases hs : syncThread u gt T0 env st with ⟨s', r⟩
    have hs' : WF s' := by
      have h2 := WF_syncThread u gt T0 env st h
      rw [hs] at h2
      exact h2
    simp only [hs]
    cases r with
    | ok c => exact ih s' hs'
    | error e => exact ih s' hs'

theorem cleanup_untouched (u T0 : Nat) (st : DBState) :
    (cleanupDeletedThreads u T0 st).1.labels = st.labels
    ∧ (cleanupDeletedThreads u T0 st).1.nextThreadId = st.nextThreadId
    ∧ (cleanupDeletedThreads u T0 st).1.nextMessageId = st.nextMessageId
    ∧ (cleanupDeletedThreads u T0 st).1.users = st.users := by
  unfold cleanupDeletedThreads
  dsimp only
  split
  · exact ⟨rfl, rfl, rfl, rfl⟩
  · exact ⟨rfl, rfl, rfl, rfl⟩

theorem WF_cleanup (u T0 : Nat) (st : DBState) (h : WF st) :
    WF (cleanupDeletedThreads u T0 st).1 := by
  obtain ⟨⟨hids, hkey, hlt⟩, hmkey, hmlt, hakey, halt, hlbl⟩ := h
  obtain ⟨hcth, hcm, hca, _⟩ := cleanup_spec u T0 st
  obtain ⟨hclb, hcnt, hcnm, _⟩ := cleanup_untouched u T0 st
  refine ⟨⟨?_, ?_, ?_⟩, ?_, ?_, ?_, ?_, ?_⟩
  · rw [hcth]
    exact hids.sublist ((List.filter_sublist _).map _)
  · rw [hcth]
    exact hkey.sublist (List.filter_sublist _)
  · rw [hcth, hcnt]
    intro t ht
    exact hlt t (List.mem_of_mem_filter ht)
  · rw [hcm]
    exact hmkey.sublist (List.filter_sublist _)
  · rw [hcm, hcnm]
    intro m hm
    exact hmlt m (List.mem_of_mem_filter hm)
  · rw [hca]
    exact hakey.sublist (List.filter_sublist _)
  · rw [hca, hcnm]
    intro a ha
    exact halt a (List.mem_of_mem_filter ha)
  · rw [hclb]
    exact hlbl

theorem lblWF_labelsLoop (u : Nat) (gls : List GmailLabel) (st : DBState)
    (hlbl : st.labels.Pairwise (fun a b =>
      ¬(a.userId = b.userId ∧ a.labelId = b.labelId))) :
    (labelsLoop u gls st).labels.Pairwise (fun a b =>
      ¬(a.userId = b.userId ∧ a.labelId = b.labelId)) := by
  induction gls generalizing st with
  | nil => exact hlbl
  | cons g rest ih =>
    rw [labelsLoop]
    split
    · exact ih st hlbl
    · rename_i hany
      apply ih
      dsimp only
      rw [List.pairwise_append]
      refine ⟨hlbl, by simp, ?_⟩
      intro a ha b hb
      rw [List.mem_singleton] at hb
      subst hb
      rintro ⟨hu2, hl2⟩
      rw [Bool.not_eq_true, List.any_eq_false] at hany
      have := hany a ha
      simp only at hu2 hl2
      simp [hu2, hl2] at this

theorem WF_labelsLoop (u : Nat) (gls : List GmailLabel) (st : DBState)
    (h : WF st) : WF (labelsLoop u gls st) := by
  obtain ⟨⟨hids, hkey, hlt⟩, hmkey, hmlt, hakey, halt, hlbl⟩ := h
  obtain ⟨f1, f2, f3, f4, f5, f6, f7, f8, f9, f10⟩ := labelsLoop_lblFrame u gls st
  refine ⟨⟨?_, ?_, ?_⟩, ?_, ?_, ?_, ?_, ?_⟩
  · rw [f2]; exact hids
  · rw [f2]; exact hkey
  · rw [f2, f7]; exact hlt
  · rw [f4]; exact hmkey
  · rw [f4, f8]; exact hmlt
  · rw [f5]; exact hakey
  · rw [f5, f8]; exact halt
  · exact lblWF_labelsLoop u gls st hlbl

theorem WF_syncUser (u T0 T1 : Nat) (env : SyncEnv) (st : DBState)
    (h : WF st) : WF (syncUser u T0 T1 env st).1 := by
  have h0 : WF (startSyncLog u "full" st).1 := h
  unfold syncUser
  dsimp only
  split
  · exact h0
  · rcases syncLabels_cases u env (startSyncLog u "full" st).1 with ⟨hl, heq⟩ | ⟨hl, heq⟩
    · simp only [heq]
      exact h0
    · simp only [heq]
      have h1 : WF (labelsLoop u env.gmailLabels (startSyncLog u "full" st).1) :=
        WF_labelsLoop u env.gmailLabels _ h0
      split
      · exact h1
      · have h2 := WF_threadsPhase u T0 (env.threads.take 1000) env _ h1
        exact WF_cleanup u T0 _ h2

/-! ## Claim C2: idempotence. Part 2 — the first run mirrors every thread -/

theorem finishMessage_estab (u tid : Nat) (g : GmailMsg) (key : Option String)
    (env : SyncEnv) (st : DBState) :
    msgExists (finishMessage u tid g key env st).1 tid g.id = true := by
  unfold finishMessage msgExists
  dsimp only
  rw [(attachmentLoop_attFrame u g.id (newMessageRow tid g key st).id
    (extractAttachments g.payload) env _).2.2.2.2.1]
  dsimp only
  rw [List.any_append]
  simp [newMessageRow]

theorem syncMessage_establishes (u tid : Nat) (g : GmailMsg) (env : SyncEnv)
    (st : DBState) (hb : env.bodyUploadFail u g.id = false) :
    msgExists (syncMessage u tid g env st).1 tid g.id = true := by
  unfold syncMessage
  cases hex : msgExists st tid g.id with
  | true =>
    simp only [reduceIte]
    exact hex
  | false =>
    simp only [Bool.false_eq_true, if_false]
    cases hs : strTruthy (extractHtmlBody g.payload) with
    | none =>
      simp only [hs]
      exact finishMessage_estab u tid g none env st
    | some b =>
      simp only [hs]
      rw [hb]
      simp only [Bool.false_eq_true, if_false]
      exact finishMessage_estab u tid g _ env st

theorem syncMessage_messages_shape (u tid : Nat) (g : GmailMsg) (env : SyncEnv)
    (st : DBState) :
    ∃ tail, (syncMessage u tid g env st).1.messages = st.messages ++ tail := by
  unfold syncMessage
  have main : ∀ key, ∃ tail,
      (finishMessage u tid g key env st).1.messages = st.messages ++ tail := by
    intro key
    refine ⟨[newMessageRow tid g key st], ?_⟩
    unfold finishMessage
    dsimp only
    rw [(attachmentLoop_attFrame u g.id (newMessageRow tid g key st).id
      (extractAttachments g.payload) env _).2.2.2.2.1]
  split
  · exact ⟨[], (List.append_nil _).symm⟩
  · split
    · split
      · exact ⟨[], (List.append_nil _).symm⟩
      · exact main _
    · exact main none

theorem msgExists_append (st st' : DBState) (tail : List MessageRow)
    (h : st'.messages = st.messages ++ tail) (tid : Nat) (gid : String)
    (he : msgExists st tid gid = true) : msgExists st' tid gid = true := by
  unfold msgExists at he ⊢
  rw [h, List.any_append, he, Bool.true_or]

theorem msgLoop_messages_shape (u tid : Nat) (msgs : List GmailMsg) (env : SyncEnv)
    (st : DBState) :
    ∃ tail, (msgLoop u tid msgs env st).1.messages = st.messages ++ tail := by
  induction msgs generalizing st with
  | nil => exact ⟨[], (List.append_nil _).symm⟩
  | cons g rest ih =>
    rw [msgLoop]
    obtain ⟨t0, h0⟩ := syncMessage_messages_shape u tid g env st
    rcases hm : syncMessage u tid g env st with ⟨s', r⟩
    rw [hm] at h0
    dsimp only at h0
    obtain ⟨t1, h1⟩ := ih s'
    cases r with
    | ok c =>
      simp only [hm]
      refine ⟨t0 ++ t1, ?_⟩
      show (msgLoop u tid rest env s').1.messages = st.messages ++ (t0 ++ t1)
      rw [h1, h0, List.append_assoc]
    | error e =>
      simp only [hm]
      refine ⟨t0 ++ t1, ?_⟩
      show (msgLoop u tid rest env s').1.messages = st.messages ++ (t0 ++ t1)
      rw [h1, h0, List.append_assoc]

theorem msgLoop_establishes (u tid : Nat) (msgs : List GmailMsg) (env : SyncEnv)
    (st : DBState) (hb : ∀ g ∈ msgs, env.bodyUploadFail u g.id = false) :
    ∀ g ∈ msgs, msgExists (msgLoop u tid msgs env st).1 tid g.id = true := by
  induction msgs generalizing st with
  | nil => intro g hg; cases hg
  | cons g rest ih =>
    rw [msgLoop]
    have hest := syncMessage_establishes u tid g env st (hb g (List.mem_cons_self g rest))
    rcases hm : syncMessage u tid g env st with ⟨s', r⟩
    rw [hm] at hest
    dsimp only at hest
    obtain ⟨tl, htl⟩ := msgLoop_messages_shape u tid rest env s'
    have hrest := ih s' (fun g' hg' => hb g' (List.mem_cons_of_mem g hg'))
    intro g' hg'
    cases r with
    | ok c =>
      simp only [hm]
      rcases List.mem_cons.mp hg' with rfl | hgr
      · exact msgExists_append s' _ tl htl tid g'.id hest
      · exact hrest g' hgr
    | error e =>
      simp only [hm]
      rcases List.mem_cons.mp hg' with rfl | hgr
      · exact msgExists_append s' _ tl htl tid g'.id hest
      · exact hrest g' hgr

theorem Evolves_refl (st : DBState) : Evolves st st :=
  ⟨fun t ht => ⟨t, ht, rfl, rfl, rfl⟩, fun _ hm => hm⟩

theorem Evolves_trans {s1 s2 s3 : DBState} (h1 : Evolves s1 s2)
    (h2 : Evolves s2 s3) : Evolves s1 s3 := by
  refine ⟨?_, fun m hm => h2.2 m (h1.2 m hm)⟩
  intro t ht
  obtain ⟨t2, ht2, e1, e2, e3⟩ := h1.1 t ht
  obtain ⟨t3, ht3, f1, f2, f3⟩ := h2.1 t2 ht2
  exact ⟨t3, ht3, f1.trans e1, f2.trans e2, f3.trans e3⟩

theorem Evolves_syncThread (u : Nat) (gt : GmailThread) (T0 : Nat)
    (env : SyncEnv) (st : DBState) : Evolves st (syncThread u gt T0 env st).1 := by
  rcases hfil : st.threads.filter (fun t =>
      t.userId == u && t.gmailThreadId == gt.id) with _ | ⟨t0, rest⟩
  · unfold syncThread
    simp only [hfil]
    cases hlast : gt.messages.getLast? with
    | none =>
      simp only [hlast]
      exact Evolves_refl st
    | some lm =>
      simp only [hlast]
      rw [syncThreadLabels_spec]
      refine ⟨?_, ?_⟩
      · intro t ht
        refine ⟨t, ?_, rfl, rfl, rfl⟩
        rw [(msgLoop_msgFrame u _ gt.messages env _).2.2.1]
        dsimp only
        exact List.mem_append_left _ ht
      · intro m hm
        obtain ⟨tl, htl⟩ := msgLoop_messages_shape u _ gt.messages env _
        rw [htl]
        exact List.mem_append_left _ hm
  · unfold syncThread
    simp only [hfil]
    refine ⟨?_, ?_⟩
    · intro t ht
      refine ⟨(fun r => if r.id == t0.id then { r with lastSeenAt := T0 } else r) t,
        ?_, ?_, ?_, ?_⟩
      · rw [(msgLoop_msgFrame u t0.id gt.messages env _).2.2.1]
        dsimp only
        exact List.mem_map_of_mem _ ht
      · dsimp only; split <;> rfl
      · dsimp only; split <;> rfl
      · dsimp only; split <;> rfl
    · intro m hm
      obtain ⟨tl, htl⟩ := msgLoop_messages_shape u t0.id gt.messages env _
      rw [htl]
      exact List.mem_append_left _ hm

theorem Evolves_threadsPhase (u T0 : Nat) (gts : List GmailThread)
    (env : SyncEnv) (st : DBState) : Evolves st (threadsPhase u T0 gts env st).1 := by
  induction gts generalizing st with
  | nil => exact Evolves_refl st
  | cons gt rest ih =>
    rw [threadsPhase]
    rcases hs : syncThread u gt T0 env st with ⟨s', r⟩
    have h1 : Evolves st s' := by
      have := Evolves_syncThread u gt T0 env st
      rw [hs] at this
      exact this
    simp only [hs]
    cases r with
    | ok c => exact Evolves_trans h1 (ih s')
    | error e => exact Evolves_trans h1 (ih s')

theorem threadComplete_evolves {st st' : DBState} {u : Nat} {gt : GmailThread}
    (hev : Evolves st st') (hc : threadComplete st u gt) :
    threadComplete st' u gt := by
  obtain ⟨t, ht, hu, hg, hm⟩ := hc
  obtain ⟨t', ht', hid, hu', hg'⟩ := hev.1 t ht
  refine ⟨t', ht', hu'.trans hu, hg'.trans hg, ?_⟩
  intro g hgm
  have h1 := hm g hgm
  unfold msgExists at h1 ⊢
  rw [List.any_eq_true] at h1 ⊢
  obtain ⟨m, hmem, hp⟩ := h1
  refine ⟨m, hev.2 m hmem, ?_⟩
  rw [hid]
  exact hp

theorem syncThread_establishes (u : Nat) (gt : GmailThread) (T0 : Nat)
    (env : SyncEnv) (st : DBState)
    (hne : gt.messages ≠ [])
    (hb : ∀ g ∈ gt.messages, env.bodyUploadFail u g.id = false) :
    threadComplete (syncThread u gt T0 env st).1 u gt := by
  rcases hfil : st.threads.filter (fun t =>
      t.userId == u && t.gmailThreadId == gt.id) with _ | ⟨t0, rest⟩
  · obtain ⟨lm, hlast⟩ : ∃ lm, gt.messages.getLast? = some lm := by
      cases hmsgs : gt.messages with
      | nil => exact absurd hmsgs hne
      | cons m ms => exact getLast?_cons_some m ms
    unfold syncThread
    simp only [hfil, hlast]
    rw [syncThreadLabels_spec]
    refine ⟨newThreadRow u gt lm T0 st, ?_, rfl, rfl, ?_⟩
    · rw [(msgLoop_msgFrame u _ gt.messages env _).2.2.1]
      dsimp only
      exact List.mem_append_right _ (List.mem_singleton_self _)
    · intro g hg
      exact msgLoop_establishes u _ gt.messages env _ hb g hg
  · have ht0mem : t0 ∈ st.threads.filter (fun t =>
        t.userId == u && t.gmailThreadId == gt.id) := by
      rw [hfil]; exact List.mem_cons_self t0 rest
    have ht0 : t0 ∈ st.threads := (List.mem_filter.mp ht0mem).1
    have hprop := (List.mem_filter.mp ht0mem).2
    rw [Bool.and_eq_true, beq_iff_eq, beq_iff_eq] at hprop
    unfold syncThread
    simp only [hfil]
    have hmem := List.mem_map_of_mem
      (fun r => if r.id == t0.id then { r with lastSeenAt := T0 } else r) ht0
    simp only [beq_self_eq_true, reduceIte] at hmem
    refine ⟨{ t0 with lastSeenAt := T0 }, ?_, hprop.1, hprop.2, ?_⟩
    · rw [(msgLoop_msgFrame u t0.id gt.messages env _).2.2.1]
      dsimp only
      exact hmem
    · intro g hg
      exact msgLoop_establishes u t0.id gt.messages env _ hb g hg

theorem threadsPhase_establishes (u T0 : Nat) (gts : List GmailThread)
    (env : SyncEnv) (st : DBState) (hth : ThreadsWF st)
    (hne : ∀ gt ∈ gts, gt.messages ≠ [])
    (hb : ∀ m : String, env.bodyUploadFail u m = false) :
    ∀ gt ∈ gts, threadComplete (threadsPhase u T0 gts env st).1 u gt := by
  induction gts generalizing st with
  | nil => intro gt hgt; cases hgt
  | cons gt rest ih =>
    rw [threadsPhase]
    rcases hs : syncThread u gt T0 env st with ⟨s', r⟩
    have hest : threadComplete s' u gt := by
      have := syncThread_establishes u gt T0 env st
        (hne gt (List.mem_cons_self gt rest)) (fun g _ => hb g.id)
      rw [hs] at this
      exact this
    have hth' : ThreadsWF s' := by
      have := ThreadsWF_syncThread u gt T0 env st hth
      rw [hs] at this
      exact this
    have hev : Evolves s' (threadsPhase u T0 rest env s').1 :=
      Evolves_threadsPhase u T0 rest env s'
    intro gt' hgt'
    cases r with
    | ok c =>
      simp only [hs]
      rcases List.mem_cons.mp hgt' with rfl | h'
      · exact threadComplete_evolves hev hest
      · exact ih s' hth' (fun x hx => hne x (List.mem_cons_of_mem gt hx)) gt' h'
    | error e =>
      simp only [hs]
      rcases List.mem_cons.mp hgt' with rfl | h'
      · exact threadComplete_evolves hev hest
      · exact ih s' hth' (fun x hx => hne x (List.mem_cons_of_mem gt hx)) gt' h'

theorem cleanup_preserves_complete (u T0 : Nat) (st : DBState) (gt : GmailThread)
    (hids : (st.threads.map (fun t => t.id)).Nodup)
    (hc : threadComplete st u gt)
    (hseen : ∀ t ∈ st.threads, t.userId = u → t.gmailThreadId = gt.id →
      t.lastSeenAt = T0) :
    threadComplete (cleanupDeletedThreads u T0 st).1 u gt := by
  obtain ⟨t, ht, hu, hg, hm⟩ := hc
  have hT0 : t.lastSeenAt = T0 := hseen t ht hu hg
  have hnp : t.id ∉ prunedThreadIds u T0 st := by
    intro hcon
    unfold prunedThreadIds at hcon
    obtain ⟨t', ht', hid⟩ := List.mem_map.mp hcon
    have htt : t' = t :=
      List.inj_on_of_nodup_map hids (List.mem_filter.mp ht').1 ht hid
    subst htt
    have := (List.mem_filter.mp ht').2
    simp [hT0] at this
  obtain ⟨hcth, hcm, _, _⟩ := cleanup_spec u T0 st
  refine ⟨t, ?_, hu, hg, ?_⟩
  · rw [hcth]
    exact List.mem_filter.mpr ⟨ht, by simpa using hnp⟩
  · intro g hg'
    have hme := hm g hg'
    unfold msgExists at hme ⊢
    rw [List.any_eq_true] at hme
    obtain ⟨m, hmem, hp⟩ := hme
    have hmt : m.threadId = t.id := by
      have hp' := hp
      rw [Bool.and_eq_true, beq_iff_eq, beq_iff_eq] at hp'
      exact hp'.1
    rw [hcm, List.any_eq_true]
    exact ⟨m, List.mem_filter.mpr ⟨hmem, by simpa [hmt] using hnp⟩, hp⟩

theorem syncUser_success_fields (u T0 T1 : Nat) (env : SyncEnv) (st : DBState)
    (hu : st.users.any (fun x => x.id == u) = true)
    (hl : env.labelsFail = false) (ht : env.threadsFail = false) :
    (syncUser u T0 T1 env st).1.threads
        = (cleanupDeletedThreads u T0 (threadsPhase u T0 (env.threads.take 1000) env
            (labelsLoop u env.gmailLabels (startSyncLog u "full" st).1)).1).1.threads
    ∧ (syncUser u T0 T1 env st).1.messages
        = (cleanupDeletedThreads u T0 (threadsPhase u T0 (env.threads.take 1000) env
            (labelsLoop u env.gmailLabels (startSyncLog u "full" st).1)).1).1.messages
    ∧ (syncUser u T0 T1 env st).1.attachments
        = (cleanupDeletedThreads u T0 (threadsPhase u T0 (env.threads.take 1000) env
            (labelsLoop u env.gmailLabels (startSyncLog u "full" st).1)).1).1.attachments
    ∧ (syncUser u T0 T1 env st).1.labels
        = (cleanupDeletedThreads u T0 (threadsPhase u T0 (env.threads.take 1000) env
            (labelsLoop u env.gmailLabels (startSyncLog u "full" st).1)).1).1.labels
    ∧ (syncUser u T0 T1 env st).1.users
        = (cleanupDeletedThreads u T0 (threadsPhase u T0 (env.threads.take 1000) env
            (labelsLoop u env.gmailLabels (startSyncLog u "full" st).1)).1).1.users.map
          (fun x => if x.id == u then { x with lastSyncAt := some T1 } else x) := by
  have hany : ((startSyncLog u "full" st).1.users.any fun x => x.id == u) = true := by
    unfold startSyncLog
    simpa using hu
  unfold syncUser syncLabels
  simp only [hany, hl, ht, Bool.not_true, Bool.false_eq_true, if_false]
  exact ⟨rfl, rfl, rfl, rfl, rfl⟩

theorem syncUser_establishes (u T0 T1 : Nat) (env : SyncEnv) (st : DBState)
    (hwf : WF st)
    (hu : st.users.any (fun x => x.id == u) = true)
    (hl : env.labelsFail = false) (ht : env.threadsFail = false)
    (hne : ∀ gt ∈ env.threads, gt.messages ≠ [])
    (hb : ∀ m : String, env.bodyUploadFail u m = false) :
    ∀ gt ∈ env.threads.take 1000,
      threadComplete (syncUser u T0 T1 env st).1 u gt := by
  intro gt hgt
  have h1 : WF (labelsLoop u env.gmailLabels (startSyncLog u "full" st).1) :=
    WF_labelsLoop u env.gmailLabels _ hwf
  have hcomp := threadsPhase_establishes u T0 (env.threads.take 1000) env _ h1.1
    (fun x hx => hne x (List.take_subset 1000 env.threads hx)) hb gt hgt
  have hseen := threadsPhase_lastSeen u T0 (env.threads.take 1000) env _ h1.1
  have hwfmid := WF_threadsPhase u T0 (env.threads.take 1000) env _ h1
  have hfinal := cleanup_preserves_complete u T0 _ gt hwfmid.1.1 hcomp
    (fun t htm hu' hg' => hseen t htm hu'
      (by rw [hg']; exact List.mem_map_of_mem _ hgt))
  obtain ⟨hfth, hfm, _, _, _⟩ := syncUser_success_fields u T0 T1 env st hu hl ht
  obtain ⟨t, htt, hu', hg', hmm⟩ := hfinal
  refine ⟨t, ?_, hu', hg', ?_⟩
  · rw [hfth]
    exact htt
  · intro g hg2
    have := hmm g hg2
    unfold msgExists at this ⊢
    rw [hfm]
    exact this

theorem syncUser_success_labels (u T0 T1 : Nat) (env : SyncEnv) (st : DBState)
    (hu : st.users.any (fun x => x.id == u) = true)
    (hl : env.labelsFail = false) (ht : env.threadsFail = false) :
    (syncUser u T0 T1 env st).1.labels
      = (labelsLoop u env.gmailLabels (startSyncLog u "full" st).1).labels := by
  obtain ⟨_, _, _, hlb, _⟩ := syncUser_success_fields u T0 T1 env st hu hl ht
  rw [hlb, (cleanup_untouched u T0 _).1, (threadsPhase_thFrame u T0 _ env _).2.1]

theorem syncUser_users_any (u T0 T1 : Nat) (env : SyncEnv) (st : DBState)
    (hu : st.users.any (fun x => x.id == u) = true)
    (hl : env.labelsFail = false) (ht : env.threadsFail = false) :
    (syncUser u T0 T1 env st).1.users.any (fun x => x.id == u) = true := by
  obtain ⟨_, _, _, _, husers⟩ := syncUser_success_fields u T0 T1 env st hu hl ht
  rw [husers, (cleanup_untouched u T0 _).2.2.2, (threadsPhase_thFrame u T0 _ env _).1,
    (labelsLoop_lblFrame u env.gmailLabels _).1]
  rw [List.any_eq_true] at hu ⊢
  obtain ⟨x, hx, hpx⟩ := hu
  refine ⟨(fun x => if x.id == u then { x with lastSyncAt := some T1 } else x) x,
    List.mem_map_of_mem _ hx, ?_⟩
  dsimp only
  split <;> exact hpx

/-! ## Claim C2: idempotence. Part 3 — the second run skips everything -/

theorem msgLoop_allExists (u tid : Nat) (msgs : List GmailMsg) (env : SyncEnv)
    (st : DBState) (h : ∀ g ∈ msgs, msgExists st tid g.id = true) :
    msgLoop u tid msgs env st = (st, 0, 0) := by
  induction msgs with
  | nil => rfl
  | cons g rest ih =>
    rw [msgLoop]
    have h1 : syncMessage u tid g env st = (st, .ok (0, 0)) := by
      unfold syncMessage
      rw [if_pos (h g (List.mem_cons_self g rest))]
    simp only [h1]
    rw [ih (fun g' hg' => h g' (List.mem_cons_of_mem g hg'))]
    rfl

theorem syncThread_skip (u : Nat) (gt : GmailThread) (T0 : Nat) (env : SyncEnv)
    (st : DBState)
    (hkey : st.threads.Pairwise (fun a b =>
      ¬(a.userId = b.userId ∧ a.gmailThreadId = b.gmailThreadId)))
    (hc : threadComplete st u gt) :
    ∃ t0 ∈ st.threads,
      syncThread u gt T0 env st
        = ({ st with threads := st.threads.map (fun r =>
              if r.id == t0.id then { r with lastSeenAt := T0 } else r) },
           .ok ⟨0, 0, 0⟩) := by
  obtain ⟨t0, ht0, hu0, hg0, hmsgs⟩ := hc
  refine ⟨t0, ht0, ?_⟩
  have hfil := thread_filter_singleton u gt.id st hkey t0 ht0 hu0 hg0
  unfold syncThread
  simp only [hfil]
  rw [msgLoop_allExists u t0.id gt.messages env
    { st with threads := st.threads.map (fun r =>
        if r.id == t0.id then { r with lastSeenAt := T0 } else r) }
    (fun g hg => hmsgs g hg)]

theorem threadComplete_map_lastSeen (st : DBState) (u : Nat) (gt : GmailThread)
    (tid T0 : Nat) (h : threadComplete st u gt) :
    threadComplete { st with threads := st.threads.map (fun r =>
      if r.id == tid then { r with lastSeenAt := T0 } else r) } u gt := by
  obtain ⟨t, ht, hu, hg, hm⟩ := h
  refine ⟨(fun r => if r.id == tid then { r with lastSeenAt := T0 } else r) t,
    ?_, ?_, ?_, ?_⟩
  · exact List.mem_map_of_mem _ ht
  · dsimp only; split <;> exact hu
  · dsimp only; split <;> exact hg
  · intro g hg'
    have := hm g hg'
    dsimp only
    split <;> exact this

theorem threadsPhase_skip (u T0 : Nat) (gts : List GmailThread) (env : SyncEnv)
    (st : DBState) (hwf : WF st) (hc : ∀ gt ∈ gts, threadComplete st u gt) :
    (threadsPhase u T0 gts env st).2 = ⟨0, 0, 0⟩
    ∧ (threadsPhase u T0 gts env st).1.messages = st.messages
    ∧ (threadsPhase u T0 gts env st).1.attachments = st.attachments
    ∧ (threadsPhase u T0 gts env st).1.labels = st.labels
    ∧ ∀ t ∈ (threadsPhase u T0 gts env st).1.threads, ∃ t' ∈ st.threads,
        t.id = t'.id ∧ t.userId = t'.userId ∧ t.gmailThreadId = t'.gmailThreadId := by
  induction gts generalizing st with
  | nil => exact ⟨rfl, rfl, rfl, rfl, fun t ht => ⟨t, ht, rfl, rfl, rfl⟩⟩
  | cons gt rest ih =>
    obtain ⟨t0, ht0, heq⟩ := syncThread_skip u gt T0 env st hwf.1.2.1
      (hc gt (List.mem_cons_self gt rest))
    have hw1 : WF ({ st with threads := st.threads.map (fun r =>
        if r.id == t0.id then { r with lastSeenAt := T0 } else r) }) := by
      have h2 := WF_syncThread u gt T0 env st hwf
      rw [heq] at h2
      exact h2
    have hc1 : ∀ gt' ∈ rest, threadComplete ({ st with threads := st.threads.map (fun r =>
        if r.id == t0.id then { r with lastSeenAt := T0 } else r) }) u gt' :=
      fun gt' h' => threadComplete_map_lastSeen st u gt' t0.id T0
        (hc gt' (List.mem_cons_of_mem gt h'))
    obtain ⟨h1, h2, h3, h4, h5⟩ := ih _ hw1 hc1
    rw [threadsPhase]
    simp only [heq]
    refine ⟨?_, ?_, ?_, ?_, ?_⟩
    · rw [h1]
      rfl
    · exact h2
    · exact h3
    · exact h4
    · intro t htm
      obtain ⟨t', ht', e1, e2, e3⟩ := h5 t htm
      obtain ⟨t'', ht'', hft⟩ := List.mem_map.mp ht'
      refine ⟨t'', ht'', ?_, ?_, ?_⟩
      · rw [e1, ← hft]; split <;> rfl
      · rw [e2, ← hft]; split <;> rfl
      · rw [e3, ← hft]; split <;> rfl

theorem labelsLoop_labels_mono (u : Nat) (gls : List GmailLabel) (st : DBState) :
    ∀ l ∈ st.labels, l ∈ (labelsLoop u gls st).labels := by
  induction gls generalizing st with
  | nil => exact fun l hl => hl
  | cons g rest ih =>
    rw [labelsLoop]
    split
    · exact ih st
    · intro l hl
      exact ih _ l (List.mem_append_left _ hl)

theorem labelsLoop_establishes (u : Nat) (gls : List GmailLabel) (st : DBState) :
    ∀ gl ∈ gls, (labelsLoop u gls st).labels.any (fun l =>
      l.userId == u && l.labelId == gl.id) = true := by
  induction gls generalizing st with
  | nil => intro gl hgl; cases hgl
  | cons g rest ih =>
    intro gl hgl
    rw [labelsLoop]
    split
    · rename_i hany
      rcases List.mem_cons.mp hgl with rfl | h'
      · rw [List.any_eq_true] at hany ⊢
        obtain ⟨l, hl, hpl⟩ := hany
        exact ⟨l, labelsLoop_labels_mono u rest st l hl, hpl⟩
      · exact ih st gl h'
    · rcases List.mem_cons.mp hgl with rfl | h'
      · rw [List.any_eq_true]
        refine ⟨{ id := st.nextLabelId, userId := u, labelId := gl.id, name := gl.name, type := labelTypeOf gl }, ?_, ?_⟩
        · exact labelsLoop_labels_mono u rest _ _
            (List.mem_append_right _ (List.mem_singleton_self _))
        · simp
      · exact ih _ gl h'

theorem labelsLoop_skip (u : Nat) (gls : List GmailLabel) (st : DBState)
    (h : ∀ gl ∈ gls, st.labels.any (fun l =>
      l.userId == u && l.labelId == gl.id) = true) :
    labelsLoop u gls st = st := by
  induction gls with
  | nil => rfl
  | cons g rest ih =>
    rw [labelsLoop, if_pos (h g (List.mem_cons_self g rest))]
    exact ih (fun gl hgl => h gl (List.mem_cons_of_mem g hgl))

theorem startSyncLog_fields (u : Nat) (ty : String) (st : DBState) :
    (startSyncLog u ty st).1.labels = st.labels
    ∧ (startSyncLog u ty st).1.threads = st.threads
    ∧ (startSyncLog u ty st).1.messages = st.messages
    ∧ (startSyncLog u ty st).1.attachments = st.attachments :=
  ⟨rfl, rfl, rfl, rfl⟩

/-- C2: running the full sync cycle twice with the identical remote
labels, threads, messages and attachments and no failures leaves every
unique-key invariant intact after both runs (so no duplicate Conversation,
Message, Attachment or Label rows exist), and the second run inserts
nothing: it reports `threadsSynced = 0` and `messagesSynced = 0`, its
final labels table equals the first run's, every message and attachment
row it ends with already existed after the first run, and every thread
row it ends with carries the id and `(userId, gmailThreadId)` key of a
thread row of the first run — each item is looked up by its remote
identifier before insert and skipped when present. -/
theorem two_runs_idempotent (u T0 T1 T0' T1' : Nat) (env : SyncEnv) (st : DBState)
    (hwf : WF st)
    (hu : st.users.any (fun x => x.id == u) = true)
    (hl : env.labelsFail = false) (ht : env.threadsFail = false)
    (hne : ∀ gt ∈ env.threads, gt.messages ≠ [])
    (hb : ∀ m : String, env.bodyUploadFail u m = false) :
    WF (syncUser u T0 T1 env st).1
    ∧ WF (syncUser u T0' T1' env (syncUser u T0 T1 env st).1).1
    ∧ (syncUser u T0' T1' env (syncUser u T0 T1 env st).1).2.threadsSynced = 0
    ∧ (syncUser u T0' T1' env (syncUser u T0 T1 env st).1).2.messagesSynced = 0
    ∧ (syncUser u T0' T1' env (syncUser u T0 T1 env st).1).1.labels
        = (syncUser u T0 T1 env st).1.labels
    ∧ (∀ m ∈ (syncUser u T0' T1' env (syncUser u T0 T1 env st).1).1.messages,
        m ∈ (syncUser u T0 T1 env st).1.messages)
    ∧ (∀ a ∈ (syncUser u T0' T1' env (syncUser u T0 T1 env st).1).1.attachments,
        a ∈ (syncUser u T0 T1 env st).1.attachments)
    ∧ (∀ t ∈ (syncUser u T0' T1' env (syncUser u T0 T1 env st).1).1.threads,
        ∃ t' ∈ (syncUser u T0 T1 env st).1.threads,
          t.id = t'.id ∧ t.userId = t'.userId ∧ t.gmailThreadId = t'.gmailThreadId) := by
  have hwr1 : WF (syncUser u T0 T1 env st).1 := WF_syncUser u T0 T1 env st hwf
  have hu1 : (syncUser u T0 T1 env st).1.users.any (fun x => x.id == u) = true :=
    syncUser_users_any u T0 T1 env st hu hl ht
  have hcomp1 : ∀ gt ∈ env.threads.take 1000,
      threadComplete (syncUser u T0 T1 env st).1 u gt :=
    syncUser_establishes u T0 T1 env st hwf hu hl ht hne hb
  have hpres : ∀ gl ∈ env.gmailLabels,
      (syncUser u T0 T1 env st).1.labels.any (fun l =>
        l.userId == u && l.labelId == gl.id) = true := by
    intro gl hgl
    rw [syncUser_success_labels u T0 T1 env st hu hl ht]
    exact labelsLoop_establishes u env.gmailLabels _ gl hgl
  have hls : labelsLoop u env.gmailLabels
      (startSyncLog u "full" (syncUser u T0 T1 env st).1).1
      = (startSyncLog u "full" (syncUser u T0 T1 env st).1).1 :=
    labelsLoop_skip u env.gmailLabels _ (fun gl hgl => hpres gl hgl)
  have hw2 : WF (labelsLoop u env.gmailLabels
      (startSyncLog u "full" (syncUser u T0 T1 env st).1).1) := by
    rw [hls]
    exact hwr1
  have hc2 : ∀ gt ∈ env.threads.take 1000,
      threadComplete (labelsLoop u env.gmailLabels
        (startSyncLog u "full" (syncUser u T0 T1 env st).1).1) u gt := by
    rw [hls]
    exact fun gt hgt => hcomp1 gt hgt
  obtain ⟨hcnt, hpm, hpa, hplb, hpth⟩ :=
    threadsPhase_skip u T0' (env.threads.take 1000) env _ hw2 hc2
  have hsucc2 := syncUser_success u T0' T1' env (syncUser u T0 T1 env st).1 hu1 hl ht
  obtain ⟨f2th, f2m, f2a, f2lb, _⟩ :=
    syncUser_success_fields u T0' T1' env (syncUser u T0 T1 env st).1 hu1 hl ht
  refine ⟨hwr1, WF_syncUser u T0' T1' env _ hwr1, ?_, ?_, ?_, ?_, ?_, ?_⟩
  · rw [hsucc2]
    show (threadsPhase u T0' (env.threads.take 1000) env _).2.threadsSynced = 0
    rw [hcnt]
  · rw [hsucc2]
    show (threadsPhase u T0' (env.threads.take 1000) env _).2.messagesSynced = 0
    rw [hcnt]
  · rw [f2lb, (cleanup_untouched u T0' _).1, hplb, hls,
      (startSyncLog_fields u "full" _).1]
  · intro m hm
    rw [f2m, (cleanup_spec u T0' _).2.1] at hm
    have hm2 := List.mem_of_mem_filter hm
    rw [hpm, hls, (startSyncLog_fields u "full" _).2.2.1] at hm2
    exact hm2
  · intro a ha
    rw [f2a, (cleanup_spec u T0' _).2.2.1] at ha
    have ha2 := List.mem_of_mem_filter ha
    rw [hpa, hls, (startSyncLog_fields u "full" _).2.2.2] at ha2
    exact ha2
  · intro t htt
    rw [f2th, (cleanup_spec u T0' _).1] at htt
    have htt2 := List.mem_of_mem_filter htt
    obtain ⟨t', ht', e1, e2, e3⟩ := hpth t htt2
    rw [hls, (startSyncLog_fields u "full" _).2.1] at ht'
    exact ⟨t', ht', e1, e2, e3⟩

theorem two_runs_idempotent_witness :
    WF (syncUser 1 100 101 c2Env wEmptyStore).1
    ∧ (syncUser 1 200 201 c2Env (syncUser 1 100 101 c2Env wEmptyStore).1).2.threadsSynced = 0
    ∧ (syncUser 1 200 201 c2Env (syncUser 1 100 101 c2Env wEmptyStore).1).2.messagesSynced = 0 := by
  have h := two_runs_idempotent 1 100 101 200 201 c2Env wEmptyStore
    ⟨⟨by decide, by decide, by decide⟩, by decide, by decide, by decide, by decide, by decide⟩
    (by decide) rfl rfl
    (by
      intro gt hgt
      rw [show c2Env.threads = [c3Thread] from rfl, List.mem_singleton] at hgt
      subst hgt
      simp [c3Thread])
    (fun m => rfl)
  exact ⟨h.1, h.2.2.1, h.2.2.2.1⟩

end GmailClient
